import Mathlib

/-!
Shallow embedding of the datablock-placement and proximity engines of
`radarscope.go` (package vice).  Coordinates, headings and distances are
modelled over an arbitrary linear ordered field `K` standing in for Go's
`float32`; the square-root routine used by `length2f`/`normalize2f` lives
outside this file's source and is threaded through as an explicit function
parameter `sq` (instantiated with `Real.sqrt` where its analytic behaviour
matters, and with concrete rational tables for executable witnesses).
Altitudes are Go `int`, modelled as `ℤ`; Go `time.Duration`/`time.Time`
are nanosecond counts, modelled as `ℤ`.
-/

namespace Vice

/-- Modelled from the spec: 2-D screen/window vector, the `[2]float32` of the
source (components over the field `K`). -/
structure V2 (K : Type) where
  x : K
  y : K
deriving DecidableEq, Repr

variable {K : Type} [LinearOrderedField K]

/-- Modelled from the spec: componentwise vector addition (`add2f`, a helper of
the repository outside `src/`). -/
def add2f (a b : V2 K) : V2 K := ⟨a.x + b.x, a.y + b.y⟩

/-- Modelled from the spec: componentwise vector subtraction (`sub2f`). -/
def sub2f (a b : V2 K) : V2 K := ⟨a.x - b.x, a.y - b.y⟩

/-- Modelled from the spec: scalar multiplication (`scale2f`). -/
def scale2f (s : K) (v : V2 K) : V2 K := ⟨s * v.x, s * v.y⟩

/-- Modelled from the spec: Euclidean norm (`length2f`), with the square-root
routine abstracted as `sq`. -/
def length2f (sq : K → K) (v : V2 K) : K := sq (v.x * v.x + v.y * v.y)

/-- Modelled from the spec: unit vector in the direction of `v`
(`normalize2f`); division by a zero length yields the zero vector under
Lean's `1/0 = 0` convention (Go would produce non-finite floats there; the
engine only normalizes vectors it requires to be of length at least 1 or
sums of unit vectors). -/
def normalize2f (sq : K → K) (v : V2 K) : V2 K :=
  scale2f (1 / length2f sq v) v

/-- Modelled from the spec: axis-aligned rectangle `Extent2D` with min corner
`p0` and max corner `p1` (a type of the repository outside `src/`). -/
structure Extent2D (K : Type) where
  p0 : V2 K
  p1 : V2 K
deriving DecidableEq, Repr

namespace Extent2D

/-- Modelled from the spec: translate a rectangle by a vector
(`Extent2D.Offset`). -/
def Offset (e : Extent2D K) (v : V2 K) : Extent2D K :=
  ⟨add2f e.p0 v, add2f e.p1 v⟩

/-- Modelled from the spec: grow a rectangle by `d` on every side
(`Extent2D.Expand`), the fixed padding applied to label boxes. -/
def Expand (e : Extent2D K) (d : K) : Extent2D K :=
  ⟨⟨e.p0.x - d, e.p0.y - d⟩, ⟨e.p1.x + d, e.p1.y + d⟩⟩

/-- Modelled from the spec: center point of a rectangle (`Extent2D.Center`). -/
def Center (e : Extent2D K) : V2 K :=
  ⟨(e.p0.x + e.p1.x) / 2, (e.p0.y + e.p1.y) / 2⟩

end Extent2D

/-- Modelled from the spec: axis-aligned rectangle intersection test
(`Overlaps`, a helper of the repository outside `src/`); rectangles that
touch count as overlapping. -/
def Overlaps (a b : Extent2D K) : Prop :=
  b.p0.x ≤ a.p1.x ∧ a.p0.x ≤ b.p1.x ∧ b.p0.y ≤ a.p1.y ∧ a.p0.y ≤ b.p1.y

instance (a b : Extent2D K) : Decidable (Overlaps a b) := by
  unfold Overlaps; infer_instance

/-- Per-aircraft scope state (`AircraftScopeState` of `radarscope.go`):
ghost flag, the automatic and manual datablock offsets, the two cached
datablock text lines, the text-current flag and the local datablock bounds
(anchored near the origin, from text metrics). -/
structure AircraftScopeState (K : Type) where
  isGhost : Bool
  datablockAutomaticOffset : V2 K
  datablockManualOffset : V2 K
  datablockText : String × String
  datablockTextCurrent : Bool
  datablockBounds : Extent2D K
deriving DecidableEq, Repr

/-- The Go zero value `AircraftScopeState{}`. -/
def emptyScopeState : AircraftScopeState K :=
  ⟨false, ⟨0, 0⟩, ⟨0, 0⟩, ("", ""), false, ⟨⟨0, 0⟩, ⟨0, 0⟩⟩⟩

/-- `AircraftScopeState.WindowDatablockBounds`: the datablock bounds placed at
the aircraft's window position `p`, displaced by the manual offset when it is
non-zero and by the automatic offset otherwise. -/
def AircraftScopeState.WindowDatablockBounds (t : AircraftScopeState K)
    (p : V2 K) : Extent2D K :=
  let db := t.datablockBounds.Offset p
  if t.datablockManualOffset.x ≠ 0 ∨ t.datablockManualOffset.y ≠ 0 then
    db.Offset t.datablockManualOffset
  else
    db.Offset t.datablockAutomaticOffset

/-- `datablockConnectP` of `radarscope.go`: choose the point on the edge of the
datablock bounds closest in spirit to the track point — a corner or an edge
midpoint according to heading — returning the point and whether it is a
corner.  The `+15` shift and the two conditional wraps are as in the source. -/
def datablockConnectP (bbox : Extent2D K) (heading : K) : V2 K × Bool :=
  let center := bbox.Center
  let h1 := heading + 15
  let h2 := if h1 < 0 then h1 + 360 else h1
  let h := if h2 > 360 then h2 - 360 else h2
  if h < 30 then (⟨bbox.p0.x, center.y⟩, false)
  else if h < 90 then (⟨bbox.p0.x, bbox.p1.y⟩, true)
  else if h < 120 then (⟨center.x, bbox.p1.y⟩, false)
  else if h < 180 then (⟨bbox.p0.x, bbox.p0.y⟩, true)
  else if h < 210 then (⟨bbox.p0.x, center.y⟩, false)
  else if h < 270 then (⟨bbox.p0.x, bbox.p1.y⟩, true)
  else if h < 300 then (⟨center.x, bbox.p0.y⟩, false)
  else (⟨bbox.p0.x, bbox.p0.y⟩, true)

/-- `offsetSelfOnly` (the closure inside `RadarScopePane.layoutDatablocks`):
the ideal heading-based offset of one aircraft's datablock, computed from its
padded bounds and its heading plus the display rotation, with a 3-unit
outward nudge on edge-midpoint connection points. -/
def offsetSelfOnly (sq : K → K) (heading rotationAngle : K)
    (info : AircraftScopeState K) : V2 K :=
  let bbox := info.datablockBounds.Expand 5
  let pc := datablockConnectP bbox (heading + rotationAngle)
  let v := scale2f (-1) pc.1
  if pc.2 then v else add2f v (scale2f 3 (normalize2f sq v))

/-- Per-aircraft immutable per-frame data consumed by the layout engine: the
track's window position (`windowFromLatLongP(ac.Position())`) and the
aircraft's heading.  Visibility filtering (lost track, altitude band,
on-screen test) and the callsign sort happen upstream in
`layoutDatablocks`; the engine below operates on the resulting ordered
collection, indexed by `Fin n`. -/
structure AC (K : Type) where
  pos : V2 K
  heading : K
deriving DecidableEq, Repr

/-- The mutable per-pass data of `RadarScopePane.layoutDatablocks` in
automatic mode: the scope states (`rs.aircraft[...]`), the window-space
padded bounds array `datablockBounds`, and the `placed` flags. -/
structure LayoutState (K : Type) (n : ℕ) where
  st : Fin n → AircraftScopeState K
  bounds : Fin n → Extent2D K
  placed : Fin n → Bool

/-- Non-zero manual offset test used throughout `layoutDatablocks`
(`state.datablockManualOffset[0] != 0 || state.datablockManualOffset[1] != 0`). -/
def manualNonzero (s : AircraftScopeState K) : Prop :=
  s.datablockManualOffset.x ≠ 0 ∨ s.datablockManualOffset.y ≠ 0

instance (s : AircraftScopeState K) : Decidable (manualNonzero s) := by
  unfold manualNonzero; infer_instance

/-- Self-only layout (the `!rs.AutomaticDatablockLayout` branch of
`layoutDatablocks`), per aircraft: a non-zero manual offset zeroes the
automatic offset; otherwise the automatic offset becomes the heading-based
ideal. -/
def layoutSelfOnly (sq : K → K) (rotationAngle : K) (ac : AC K)
    (state : AircraftScopeState K) : AircraftScopeState K :=
  if manualNonzero state then
    { state with datablockAutomaticOffset := ⟨0, 0⟩ }
  else
    { state with datablockAutomaticOffset :=
        offsetSelfOnly sq ac.heading rotationAngle state }

/-- Initial automatic-mode pass state: states from the store, zero-valued
bounds (`make([]Extent2D, len(aircraft))`), all `placed` false. -/
def initLayout {n : ℕ} (store : Fin n → AircraftScopeState K) :
    LayoutState K n :=
  ⟨store, fun _ => ⟨⟨0, 0⟩, ⟨0, 0⟩⟩, fun _ => false⟩

/-- First pass of automatic layout: every aircraft with a manual offset is
placed at its fixed padded window bounds. -/
def layoutPass1 {n : ℕ} (ac : Fin n → AC K) (s : LayoutState K n) :
    LayoutState K n :=
  { st := s.st,
    bounds := fun i =>
      if manualNonzero (s.st i) then
        ((s.st i).WindowDatablockBounds (ac i).pos).Expand 5
      else s.bounds i,
    placed := fun i => decide (manualNonzero (s.st i)) }

/-- The `allowed` closure of the second (greedy) pass: a box is allowed when
it overlaps no already-placed box. -/
def pass2Allowed {n : ℕ} (s : LayoutState K n) (b : Extent2D K) : Prop :=
  ∀ j, s.placed j = true → ¬ Overlaps b (s.bounds j)

instance {n : ℕ} (s : LayoutState K n) (b : Extent2D K) :
    Decidable (pass2Allowed s b) := by
  unfold pass2Allowed; infer_instance

/-- One step of the greedy second pass for aircraft `i`: compute the ideal
offset, the box it induces, and accept it when it interferes with no
already-placed box. -/
def layoutPass2Step (sq : K → K) (rotationAngle : K) {n : ℕ}
    (ac : Fin n → AC K) (s : LayoutState K n) (i : Fin n) : LayoutState K n :=
  if s.placed i = true then s
  else
    let offset := offsetSelfOnly sq (ac i).heading rotationAngle (s.st i)
    let netOffset := sub2f offset (s.st i).datablockAutomaticOffset
    let db := (((s.st i).WindowDatablockBounds (ac i).pos).Expand 5).Offset
      netOffset
    if pass2Allowed s db then
      { st := Function.update s.st i
          { s.st i with datablockAutomaticOffset := offset },
        bounds := Function.update s.bounds i db,
        placed := Function.update s.placed i true }
    else s

/-- The greedy second pass over all aircraft in order. -/
def layoutPass2 (sq : K → K) (rotationAngle : K) {n : ℕ}
    (ac : Fin n → AC K) (s : LayoutState K n) : LayoutState K n :=
  (List.finRange n).foldl (layoutPass2Step sq rotationAngle ac) s

/-- Third pass, first loop: unplaced aircraft whose automatic offset is still
zero are seeded with the ideal offset (first time seen); others keep the
offset from the previous frame. -/
def layoutPass3Seed (sq : K → K) (rotationAngle : K) {n : ℕ}
    (ac : Fin n → AC K) (s : LayoutState K n) : LayoutState K n :=
  { s with st := fun i =>
      if s.placed i = false ∧ (s.st i).datablockAutomaticOffset = ⟨0, 0⟩ then
        { s.st i with datablockAutomaticOffset :=
            offsetSelfOnly sq (ac i).heading rotationAngle (s.st i) }
      else s.st i }

/-- Third pass, second loop: initialize the current padded window bounds of
every unplaced aircraft from its (possibly seeded) offset. -/
def layoutPass3Init {n : ℕ} (ac : Fin n → AC K) (s : LayoutState K n) :
    LayoutState K n :=
  { s with bounds := fun i =>
      if s.placed i = true then s.bounds i
      else ((s.st i).WindowDatablockBounds (ac i).pos).Expand 5 }

/-- Repulsion force on box `db` of aircraft `i`: the sum over every other,
overlapping box of the unit vector from that box's center toward `db`'s
center. -/
def relaxForce (sq : K → K) {n : ℕ} (bounds : Fin n → Extent2D K) (i : Fin n)
    (db : Extent2D K) : V2 K :=
  (List.finRange n).foldl
    (fun force j =>
      if i = j ∨ ¬ Overlaps db (bounds j) then force
      else add2f force (normalize2f sq (sub2f db.Center (bounds j).Center)))
    ⟨0, 0⟩

/-- One relaxation step for aircraft `i`: scale the repulsion force by the
per-iteration gain (`iterScale = 2`), clamp its magnitude to 32, add it to
the automatic offset, and write the box back unchanged
(`datablockBounds[i] = db` in the source assigns the value it just read, so
the bounds array is left as it was). -/
def relaxStep (sq : K → K) {n : ℕ} (s : LayoutState K n) (i : Fin n) :
    LayoutState K n :=
  if s.placed i = true then s
  else
    let db := s.bounds i
    let force0 := relaxForce sq s.bounds i db
    let force1 := scale2f 2 force0
    let force := if length2f sq force1 > 32 then
        scale2f (32 / length2f sq force1) force1
      else force1
    let newOff := add2f (s.st i).datablockAutomaticOffset force
    { s with
      st := Function.update s.st i
        { s.st i with datablockAutomaticOffset := newOff },
      bounds := Function.update s.bounds i db }

/-- One relaxation iteration over all aircraft.  The source also tracks an
`anyOverlap` flag, but its early-exit is commented out, so the flag has no
effect and the iteration count is always 20. -/
def relaxIter (sq : K → K) {n : ℕ} (s : LayoutState K n) : LayoutState K n :=
  (List.finRange n).foldl (relaxStep sq) s

/-- The bounded force-directed relaxation phase: exactly 20 iterations. -/
def relaxPhase (sq : K → K) {n : ℕ} (s : LayoutState K n) : LayoutState K n :=
  relaxIter sq ((relaxIter sq)^[19] s)

/-- The `allowed` closure of the attraction phase: the moved box must overlap
no other current box, placed or not. -/
def attractAllowed {n : ℕ} (s : LayoutState K n) (idx : Fin n)
    (b : Extent2D K) : Prop :=
  ∀ j, j ≠ idx → ¬ Overlaps b (s.bounds j)

instance {n : ℕ} (s : LayoutState K n) (idx : Fin n) (b : Extent2D K) :
    Decidable (attractAllowed s idx b) := by
  unfold attractAllowed; infer_instance

/-- One attraction step for aircraft `i`: when the remaining pull toward the
ideal offset has length at least 1, take a unit step along it, accepted only
when the moved box overlaps no other box. -/
def attractStep (sq : K → K) (rotationAngle : K) {n : ℕ} (ac : Fin n → AC K)
    (p : LayoutState K n × Bool) (i : Fin n) : LayoutState K n × Bool :=
  let s := p.1
  if s.placed i = true then p
  else
    let db := s.bounds i
    let goBack := sub2f (offsetSelfOnly sq (ac i).heading rotationAngle (s.st i))
      (s.st i).datablockAutomaticOffset
    if length2f sq goBack < 1 then p
    else
      let force := normalize2f sq goBack
      let dbMoved := db.Offset force
      if attractAllowed s i dbMoved then
        let newOff := add2f (s.st i).datablockAutomaticOffset force
        ({ s with
           st := Function.update s.st i
             { s.st i with datablockAutomaticOffset := newOff },
           bounds := Function.update s.bounds i dbMoved }, true)
      else p

/-- One full attraction pass over all aircraft, returning the updated state
and the `anyMoved` flag. -/
def attractPass (sq : K → K) (rotationAngle : K) {n : ℕ} (ac : Fin n → AC K)
    (s : LayoutState K n) : LayoutState K n × Bool :=
  (List.finRange n).foldl (attractStep sq rotationAngle ac) (s, false)

/-- The attraction loop, fuelled: repeat full passes while a pass moved
anything.  The source's loop is unbounded (`for { ... if !anyMoved break }`);
the fuel makes the embedding total, and the C8 theorem shows a fixpoint is
always reached. -/
def attractLoop (sq : K → K) (rotationAngle : K) {n : ℕ} (ac : Fin n → AC K) :
    ℕ → LayoutState K n → LayoutState K n
  | 0, s => s
  | fuel + 1, s =>
    let p := attractPass sq rotationAngle ac s
    if p.2 = true then attractLoop sq rotationAngle ac fuel p.1 else p.1

/-- The whole automatic-mode pipeline of `layoutDatablocks`: pin manual
offsets, greedy ideal placement, offset seeding and bounds initialization,
20 relaxation iterations, then the attraction loop. -/
def layoutAutomatic (sq : K → K) (rotationAngle : K) {n : ℕ}
    (ac : Fin n → AC K) (store : Fin n → AircraftScopeState K) (fuel : ℕ) :
    LayoutState K n :=
  attractLoop sq rotationAngle ac fuel
    (relaxPhase sq
      (layoutPass3Init ac
        (layoutPass3Seed sq rotationAngle ac
          (layoutPass2 sq rotationAngle ac
            (layoutPass1 ac (initLayout store))))))

/-! ## Proximity engine: range-warning set, audio alert, MIT lines -/

/-- The per-frame symmetric warning/violation pair set, rebuilt by
`drawRangeIndicators` from the warning and violation lists: each pair is
inserted in both orders, so lookups match either orientation.  Aircraft are
identified by their stable handle (the `*Aircraft` key), modelled as `ℕ`. -/
def rangeWarningsOf (warnings violations : List (ℕ × ℕ)) : List (ℕ × ℕ) :=
  warnings ++ warnings.map (fun p => (p.2, p.1)) ++
    violations ++ violations.map (fun p => (p.2, p.1))

/-- The audio-alert cooldown of `drawRangeIndicators`: when the violation
list is non-empty and strictly more than 3 seconds (3·10⁹ ns, Go
`3*time.Second`) have elapsed since `lastRangeNotificationPlayed`, exactly
one `AudioEventConflictAlert` is fired and the clock is reset to `now`.
Returns the number of alert events fired this frame and the new clock. -/
def rangeAlert (numViolations : ℕ) (now lastPlayed : ℤ) : ℕ × ℤ :=
  if 0 < numViolations ∧ now - lastPlayed > 3000000000 then (1, now)
  else (0, lastPlayed)

/-- Aircraft data consumed by `drawMIT`: an identity handle (the `*Aircraft`
pointer), a position handle (positions are opaque `Point2LL`s consumed only
through the distance and bearing functions), altitude, heading, and the
flight plan's arrival airport. -/
structure MITAircraft (K : Type) where
  id : ℕ
  pos : ℕ
  alt : ℤ
  heading : K
  arrive : ℕ
deriving DecidableEq, Repr

/-- Modelled from the spec: `headingDifference` (repository helper outside
`src/`), the unsigned angular difference of two headings, at most 180°. -/
def headingDifference (a b : K) : K :=
  let d := |a - b|
  if d > 180 then 360 - d else d

/-- The `inTrail` closure of `drawMIT`, exactly as called with
`inTrail(arr[i], arr[j])`: `back` is the candidate `arr[j]`, `front` the
aircraft `arr[i]` being processed; the altitude difference is the signed
`back - front`, and the heading test compares the candidate's heading with
the bearing from the candidate to `front` (the source's `headingp2ll(back,
front)`), abstracted as `bearing`. -/
def inTrail (bearing : ℕ → ℕ → K) (front back : MITAircraft K) : Prop :=
  headingDifference back.heading (bearing back.pos front.pos) < 150 ∧
    back.alt - front.alt < 3000

instance (bearing : ℕ → ℕ → K) (front back : MITAircraft K) :
    Decidable (inTrail bearing front back) := by
  unfold inTrail; infer_instance

/-- Element access into the distance-sorted arrival list; out-of-range
indices (never used by the engine) yield a dummy record. -/
def arrGet (arr : List (MITAircraft K)) (i : ℕ) : MITAircraft K :=
  arr.getD i ⟨0, 0, 0, 0, 0⟩

/-- One step of the automatic-MIT inner search (`drawMIT`): candidate `j` for
aircraft `i` replaces the running minimum when it is a different aircraft
bound for the same arrival airport, strictly closer than the running
minimum, and `inTrail`.  The accumulator is the running `(minDist, closest)`
with `closest = none` for `closestSet == false`. -/
def mitSearchStep (nmdist : ℕ → ℕ → K) (bearing : ℕ → ℕ → K)
    (arr : List (MITAircraft K)) (i : ℕ) (acc : K × Option ℕ) (j : ℕ) :
    K × Option ℕ :=
  let ac := arrGet arr i
  let ac2 := arrGet arr j
  let dist := nmdist ac.pos ac2.pos
  if i = j ∨ ac2.arrive ≠ ac.arrive then acc
  else if dist < acc.1 ∧ inTrail bearing ac ac2 then (dist, some j)
  else acc

/-- The automatic-MIT nearest-valid-predecessor search for arrival `i`: scan
every index with the running minimum seeded at 20 distance-units; return the
chosen index and its lateral distance, or `none` when no candidate
qualified.  (The source also records `EstimatedFutureDistance` of the chosen
pair; that projection is an external helper and is not part of the
selection.) -/
def mitClosest (nmdist bearing : ℕ → ℕ → K) (arr : List (MITAircraft K))
    (i : ℕ) : Option (ℕ × K) :=
  let r := (List.range arr.length).foldl (mitSearchStep nmdist bearing arr i)
    (20, none)
  r.2.map (fun j => (j, r.1))

/-- The automatic branch of `drawMIT` (on when `AutoMIT` is set and no
explicit sequence exists): for every index of the distance-sorted arrival
list except index 0, run the predecessor search, and emit the line
`(trailing id, leading id, lateral distance)` unless the pair is in the
current range-warning set. -/
def autoMITLines (nmdist bearing : ℕ → ℕ → K) (warn : List (ℕ × ℕ))
    (arr : List (MITAircraft K)) : List (ℕ × ℕ × K) :=
  ((List.range arr.length).drop 1).filterMap (fun i =>
    match mitClosest nmdist bearing arr i with
    | none => none
    | some (j, d) =>
      if ((arrGet arr i).id, (arrGet arr j).id) ∈ warn then none
      else some ((arrGet arr i).id, (arrGet arr j).id, d))

/-- The explicit-sequence branch of `drawMIT`: for each consecutive pair of
the configured sequence, emit `(front id, trailing id, lateral distance)`
unless the pair is in the current range-warning set. -/
def explicitMITLines (nmdist : ℕ → ℕ → K) (warn : List (ℕ × ℕ))
    (seq : List (MITAircraft K)) : List (ℕ × ℕ × K) :=
  ((List.range seq.length).drop 1).filterMap (fun i =>
    let front := arrGet seq (i - 1)
    let trailing := arrGet seq i
    if (front.id, trailing.id) ∈ warn then none
    else some (front.id, trailing.id, nmdist front.pos trailing.pos))

/-! ## ScopeState store events and display duplication -/

/-- Functional update of a Go map modelled as `ℕ → Option α`: `mupdate m k v`
binds key `k` to `v` (with `v = none` for `delete`). -/
def mupdate {α : Type} (m : ℕ → Option α) (k : ℕ) (v : Option α) :
    ℕ → Option α :=
  fun x => if x = k then v else m x

/-- The `ModifiedAircraftEvent` case of `RadarScopePane.processEvents`: with
CRDA on, first drop the modified aircraft's old ghost (state and link); then
create a fresh state if the aircraft is untracked, else mark its datablock
text stale; finally, with CRDA on, install the freshly derived ghost (the
external `CRDAConfig.GetGhost`, abstracted as `getGhost`).  Returns the new
state store and ghost-link map. -/
def processModified (crdaEnabled : Bool) (getGhost : ℕ → Option ℕ)
    (aircraft : ℕ → Option (AircraftScopeState K)) (ghostAircraft : ℕ → Option ℕ)
    (ac : ℕ) : (ℕ → Option (AircraftScopeState K)) × (ℕ → Option ℕ) :=
  let s1 :=
    if crdaEnabled then
      match ghostAircraft ac with
      | some oldGhost =>
        (mupdate aircraft oldGhost none, mupdate ghostAircraft ac none)
      | none => (aircraft, ghostAircraft)
    else (aircraft, ghostAircraft)
  let s2 :=
    match s1.1 ac with
    | none => mupdate s1.1 ac (some emptyScopeState)
    | some state =>
      mupdate s1.1 ac (some { state with datablockTextCurrent := false })
  if crdaEnabled then
    match getGhost ac with
    | some ghost =>
      (mupdate s2 ghost (some { emptyScopeState with isGhost := true }),
        mupdate s1.2 ac (some ghost))
    | none => (s2, s1.2)
  else (s2, s1.2)

/-- The per-entry state copy performed by `RadarScopePane.Duplicate`: a fresh
`AircraftScopeState` carrying only the ghost flag and the datablock text,
every other field at its Go zero value. -/
def dupScopeState (s : AircraftScopeState K) : AircraftScopeState K :=
  { emptyScopeState with isGhost := s.isGhost, datablockText := s.datablockText }

/-- The `dupe.aircraft` loop of `Duplicate`: same keys (the original
`*Aircraft` pointers), each value a fresh partial copy. -/
def duplicateAircraftMap (m : List (ℕ × AircraftScopeState K)) :
    List (ℕ × AircraftScopeState K) :=
  m.map (fun e => (e.1, dupScopeState e.2))

/-- The `dupe.ghostAircraft` loop of `Duplicate`: `ghost := *gh` copies the
ghost aircraft record to a freshly allocated one, so each source maps to a
new ghost handle; freshly allocated handles are modelled as
`freshBase + k` for the `k`-th entry, with the caller choosing `freshBase`
above every live handle. -/
def duplicateGhostMap (g : List (ℕ × ℕ)) (freshBase : ℕ) : List (ℕ × ℕ) :=
  g.enum.map (fun e => (e.2.1, freshBase + e.1))

/-! ## Claim C9: duplicating a display instance -/

/-- A tracked state with a manual offset, used to exercise `Duplicate`. -/
def st9 : AircraftScopeState ℚ :=
  { (emptyScopeState : AircraftScopeState ℚ) with
    datablockManualOffset := ⟨10, 10⟩,
    datablockAutomaticOffset := ⟨3, 4⟩,
    datablockTextCurrent := true,
    datablockBounds := ⟨⟨0, -10⟩, ⟨20, 0⟩⟩ }

/-! ## Claim C6: anchor-choice policy -/

/-- The anchor map exactly as the C6 claim states it: the shifted heading is
wrapped into `[0, 360)` (so 360 wraps to 0), and the eight sectors map to
left-edge-midpoint, bottom-left-corner, bottom-edge-midpoint,
bottom-left-corner, left-edge-midpoint, bottom-left-corner,
bottom-edge-midpoint, bottom-left-corner. -/
def claimConnectP (bbox : Extent2D K) (heading : K) : V2 K × Bool :=
  let center := bbox.Center
  let h1 := heading + 15
  let h2 := if h1 < 0 then h1 + 360 else h1
  let h := if h2 ≥ 360 then h2 - 360 else h2
  if h < 30 then (⟨bbox.p0.x, center.y⟩, false)
  else if h < 90 then (⟨bbox.p0.x, bbox.p0.y⟩, true)
  else if h < 120 then (⟨center.x, bbox.p0.y⟩, false)
  else if h < 180 then (⟨bbox.p0.x, bbox.p0.y⟩, true)
  else if h < 210 then (⟨bbox.p0.x, center.y⟩, false)
  else if h < 270 then (⟨bbox.p0.x, bbox.p0.y⟩, true)
  else if h < 300 then (⟨center.x, bbox.p0.y⟩, false)
  else (⟨bbox.p0.x, bbox.p0.y⟩, true)

/-- The anchor map the source actually computes, phrased over the shifted
angle `a = heading + 15` (taken in `[0, 360]`, with 360 landing in the last
sector): left-edge-midpoint, top-left-corner, top-edge-midpoint,
bottom-left-corner, left-edge-midpoint, top-left-corner,
bottom-edge-midpoint, bottom-left-corner — never an anchor on the right
edge. -/
def amendedConnectP (bbox : Extent2D K) (a : K) : V2 K × Bool :=
  let center := bbox.Center
  if a < 30 then (⟨bbox.p0.x, center.y⟩, false)
  else if a < 90 then (⟨bbox.p0.x, bbox.p1.y⟩, true)
  else if a < 120 then (⟨center.x, bbox.p1.y⟩, false)
  else if a < 180 then (⟨bbox.p0.x, bbox.p0.y⟩, true)
  else if a < 210 then (⟨bbox.p0.x, center.y⟩, false)
  else if a < 270 then (⟨bbox.p0.x, bbox.p1.y⟩, true)
  else if a < 300 then (⟨center.x, bbox.p0.y⟩, false)
  else (⟨bbox.p0.x, bbox.p0.y⟩, true)

/-! ## Claim C5: automatic MIT predecessor selection -/

/-- The candidate condition the C5 claim states: same destination, heading
difference between the *trailing* aircraft's heading (`arr[i]`) and the
bearing from trailing to leading below 150°, and (absolute) altitude
difference below 3000.  (Distance-within-20 is stated separately.) -/
def claimC5Qualified (nmdist bearing : ℕ → ℕ → K) (arr : List (MITAircraft K))
    (i j : ℕ) : Prop :=
  (arrGet arr j).arrive = (arrGet arr i).arrive ∧
  nmdist (arrGet arr i).pos (arrGet arr j).pos < 20 ∧
  headingDifference (arrGet arr i).heading
    (bearing (arrGet arr i).pos (arrGet arr j).pos) < 150 ∧
  |(arrGet arr i).alt - (arrGet arr j).alt| < 3000

instance (nmdist bearing : ℕ → ℕ → K) (arr : List (MITAircraft K)) (i j : ℕ) :
    Decidable (claimC5Qualified nmdist bearing arr i j) := by
  unfold claimC5Qualified; infer_instance

/-- The candidate condition the source actually tests (the `inTrail` call in
`drawMIT`, minus the list-bound and running-minimum parts). -/
def mitCandidate (bearing : ℕ → ℕ → K) (arr : List (MITAircraft K))
    (i j : ℕ) : Prop :=
  j ≠ i ∧ (arrGet arr j).arrive = (arrGet arr i).arrive ∧
    inTrail bearing (arrGet arr i) (arrGet arr j)

instance (bearing : ℕ → ℕ → K) (arr : List (MITAircraft K)) (i j : ℕ) :
    Decidable (mitCandidate bearing arr i j) := by
  unfold mitCandidate; infer_instance

/-- A qualified predecessor candidate: a valid index of the arrival list that
passes the source's candidate condition. -/
def mitQualified (bearing : ℕ → ℕ → K) (arr : List (MITAircraft K))
    (i j : ℕ) : Prop :=
  j < arr.length ∧ mitCandidate bearing arr i j

instance (bearing : ℕ → ℕ → K) (arr : List (MITAircraft K)) (i j : ℕ) :
    Decidable (mitQualified bearing arr i j) := by
  unfold mitQualified; infer_instance

/-- Arrivals used by the C5 counterexample: the leading aircraft (index 0,
closer to the destination) flies 9000 altitude-units *below* the trailing
one. -/
def arrC5 : List (MITAircraft ℚ) := [⟨1, 0, 1000, 0, 0⟩, ⟨2, 1, 10000, 0, 0⟩]

/-- Arrivals used by the C7 witness: two aircraft (ids 2 and 1) on the same
arrival, with an unrelated pair (1, 9) flagged as a warning. -/
def arrC7 : List (MITAircraft ℚ) := [⟨1, 0, 0, 0, 0⟩, ⟨2, 1, 0, 0, 0⟩]

/-- A layout transformation freezes placed aircraft when it never touches the
state, bounds or flag of an index whose `placed` flag is set. -/
def Frozen {n : ℕ} (f : LayoutState K n → LayoutState K n) : Prop :=
  ∀ s i, s.placed i = true →
    (f s).st i = s.st i ∧ (f s).bounds i = s.bounds i ∧ (f s).placed i = true

/-- The pinned state used by the C1 witness: manual offset (10, 10). -/
def st1m : AircraftScopeState ℚ :=
  { (emptyScopeState : AircraftScopeState ℚ) with
    datablockManualOffset := ⟨10, 10⟩,
    datablockBounds := ⟨⟨0, -10⟩, ⟨20, 0⟩⟩ }

/-! ## Claim C3: pairwise non-overlap of placed datablocks -/

/-- Pairwise separation of placed boxes, relative to a baseline flag set `P`
(the manually-pinned aircraft of the first pass): every two placed aircraft
of which at least one is outside `P` have non-overlapping boxes. -/
def PlacedSep {n : ℕ} (P : Fin n → Bool) (s : LayoutState K n) : Prop :=
  ∀ i j, i ≠ j → s.placed i = true → s.placed j = true →
    (P i = false ∨ P j = false) → ¬ Overlaps (s.bounds i) (s.bounds j)

/-- The two aircraft of the C3 counterexample: both manually pinned with the
same offset at the same track position, so their padded boxes coincide. -/
def storeC3x : Fin 2 → AircraftScopeState ℚ := fun _ =>
  { (emptyScopeState : AircraftScopeState ℚ) with
    datablockManualOffset := ⟨10, 10⟩,
    datablockBounds := ⟨⟨0, -10⟩, ⟨20, 0⟩⟩ }

/-- The two aircraft of the C3 witness: one manually pinned, one laid out
automatically far away from it. -/
def storeC3w : Fin 2 → AircraftScopeState ℚ := fun k =>
  if k = 0 then
    { (emptyScopeState : AircraftScopeState ℚ) with
      datablockManualOffset := ⟨10, 10⟩,
      datablockBounds := ⟨⟨0, -10⟩, ⟨20, 0⟩⟩ }
  else
    { (emptyScopeState : AircraftScopeState ℚ) with
      datablockBounds := ⟨⟨0, -10⟩, ⟨20, 0⟩⟩ }

/-- Track positions for the C3 witness: the two aircraft are 500 units
apart, heading 45 so the ideal anchor is a corner. -/
def acC3w : Fin 2 → AC ℚ := fun k =>
  if k = 0 then ⟨⟨100, 100⟩, 45⟩ else ⟨⟨600, 600⟩, 45⟩

/-! ## Claim C2: the relaxation iteration never moves the tested boxes -/

/-- Square-root table for the C2 scenario (the only radicands that arise are
36 and 4). -/
def sqC2 : ℚ → ℚ := fun q => if q = 36 then 6 else if q = 4 then 2 else 0

/-- Two unplaced aircraft whose padded boxes overlap, the setup reaching the
relaxation phase. -/
def stateC2 : LayoutState ℚ 2 :=
  { st := fun _ => emptyScopeState,
    bounds := fun k => if k = 0 then ⟨⟨0, 0⟩, ⟨10, 10⟩⟩ else ⟨⟨6, 0⟩, ⟨16, 10⟩⟩,
    placed := fun _ => false }

/-! ## Claim C8: termination of the attraction-back loop

The attraction loop is analysed over `ℝ` with the exact square root, the
semantics the float code approximates: every accepted unit step shortens
the distance to the ideal anchor offset by exactly 1, so the total (ceiled)
distance is a strictly decreasing natural measure and a pass with zero
accepted moves is reached. -/

/-- The pull toward the ideal offset (`goBack` in the source). -/
def attractGoBack (sq : K → K) (rotationAngle : K) {n : ℕ}
    (ac : Fin n → AC K) (s : LayoutState K n) (i : Fin n) : V2 K :=
  sub2f (offsetSelfOnly sq (ac i).heading rotationAngle (s.st i))
    (s.st i).datablockAutomaticOffset

/-- The state sequence produced by repeated attraction passes. -/
def attractSeq (sq : K → K) (rotationAngle : K) {n : ℕ} (ac : Fin n → AC K)
    (s : LayoutState K n) : ℕ → LayoutState K n
  | 0 => s
  | k + 1 =>
    (attractPass sq rotationAngle ac
      (attractSeq sq rotationAngle ac s k)).1

/-- Total remaining attraction work: the sum over unplaced aircraft of the
ceiled distance to the ideal anchor offset. -/
noncomputable def attractMeasure (rotationAngle : ℝ) {n : ℕ}
    (ac : Fin n → AC ℝ) (s : LayoutState ℝ n) : ℕ :=
  ∑ i : Fin n, if s.placed i = true then 0 else
    (Int.ceil (length2f Real.sqrt
      (attractGoBack Real.sqrt rotationAngle ac s i))).toNat

/-- The state produced by an accepted attraction move for aircraft `i`. -/
def attractAccept (sq : K → K) (rotationAngle : K) {n : ℕ}
    (ac : Fin n → AC K) (s : LayoutState K n) (i : Fin n) : LayoutState K n :=
  let f := normalize2f sq (attractGoBack sq rotationAngle ac s i)
  let newOff := add2f (s.st i).datablockAutomaticOffset f
  { s with
    st := Function.update s.st i
      { s.st i with datablockAutomaticOffset := newOff },
    bounds := Function.update s.bounds i ((s.bounds i).Offset f) }

/-! ## Theorems -/

theorem Overlaps.symm {a b : Extent2D K} (h : Overlaps a b) : Overlaps b a :=
  ⟨h.2.1, h.1, h.2.2.2, h.2.2.1⟩

/-! ## Claim C4: audio-alert cooldown -/

/-- C4 counterexample: with a violation present and exactly 3 seconds
(3·10⁹ ns) elapsed since the last firing — "at least 3 seconds" in the
claim's words — the engine fires no alert, because the source compares with
a strict `time.Since(..) > 3*time.Second`. -/
theorem C4_counterexample :
    (3000000000 : ℤ) - 0 ≥ 3000000000 ∧ (rangeAlert 1 3000000000 0).1 = 0 := by
  decide

/-- C4 (amended): on a frame with at least one violation and strictly more
than 3 seconds elapsed since the last firing, exactly one alert fires and
the cooldown clock resets to now; otherwise none fires and the clock is
kept.  At most one alert fires per frame however many violations there are.
Concretely, with the clock initially far in the past, violation frames at
t = 0 s and t = 1 s fire once in total, while violation frames at t = 0 s
and t = 4 s fire twice. -/
theorem C4_alert_cooldown (v : ℕ) (now lastPlayed : ℤ) :
    ((rangeAlert v now lastPlayed).1 = 1 ↔
      0 < v ∧ now - lastPlayed > 3000000000) ∧
    (rangeAlert v now lastPlayed).1 ≤ 1 ∧
    ((rangeAlert v now lastPlayed).1 = 1 →
      (rangeAlert v now lastPlayed).2 = now) ∧
    ((rangeAlert v now lastPlayed).1 = 0 →
      (rangeAlert v now lastPlayed).2 = lastPlayed) ∧
    (rangeAlert 2 0 (-4000000000)).1 = 1 ∧
    (rangeAlert 1 1000000000 ((rangeAlert 2 0 (-4000000000)).2)).1 = 0 ∧
    (rangeAlert 1 4000000000 ((rangeAlert 2 0 (-4000000000)).2)).1 = 1 := by
  refine ⟨?_, ?_, ?_, ?_, by decide, by decide, by decide⟩ <;>
    unfold rangeAlert <;> split_ifs with h <;> simp_all

/-- C4 witness: a violation 4 s after the last firing fires an alert. -/
theorem C4_alert_cooldown_witness : (rangeAlert 1 4000000000 0).1 = 1 :=
  (C4_alert_cooldown 1 4000000000 0).1.mpr ⟨by norm_num, by norm_num⟩

/-! ## Claim C10: modify events on the ScopeState store -/

/-- C10: a `ModifiedAircraftEvent` for an untracked aircraft creates a fresh
zero-valued `AircraftScopeState` (a modify acts as an add, never failing),
while one for a tracked aircraft only clears `datablockTextCurrent`,
leaving the manual and automatic offsets (and every other field)
unchanged.  The hypotheses record that a CRDA ghost is never the same
aircraft as its source. -/
theorem C10_modify_event (crdaEnabled : Bool) (getGhost : ℕ → Option ℕ)
    (aircraft : ℕ → Option (AircraftScopeState K))
    (ghostAircraft : ℕ → Option ℕ) (ac : ℕ)
    (hOld : ∀ g, ghostAircraft ac = some g → g ≠ ac)
    (hNew : ∀ g, getGhost ac = some g → g ≠ ac) :
    (aircraft ac = none →
      (processModified crdaEnabled getGhost aircraft ghostAircraft ac).1 ac =
        some emptyScopeState) ∧
    (∀ st, aircraft ac = some st →
      (processModified crdaEnabled getGhost aircraft ghostAircraft ac).1 ac =
        some { st with datablockTextCurrent := false }) := by
  unfold processModified
  cases crdaEnabled with
  | false =>
    simp only [Bool.false_eq_true, if_false]
    cases h : aircraft ac <;> simp [h, mupdate]
  | true =>
    simp only [if_true]
    cases hg : ghostAircraft ac with
    | none =>
      cases hgg : getGhost ac with
      | none => cases h : aircraft ac <;> simp [h, mupdate]
      | some gh =>
        have hne : ac ≠ gh := fun e => (hNew gh hgg) e.symm
        cases h : aircraft ac <;> simp [h, mupdate, hne]
    | some oldGhost =>
      have hne0 : ac ≠ oldGhost := fun e => (hOld oldGhost hg) e.symm
      cases hgg : getGhost ac with
      | none => cases h : aircraft ac <;> simp [h, mupdate, hne0]
      | some gh =>
        have hne : ac ≠ gh := fun e => (hNew gh hgg) e.symm
        cases h : aircraft ac <;> simp [h, mupdate, hne0, hne]

/-- C10 witness: with CRDA on and a fresh ghost handle 5 for aircraft 0, a
modify event for untracked aircraft 0 installs the empty state. -/
theorem C10_modify_event_witness :
    (processModified true (fun _ => some 5)
      (fun _ => (none : Option (AircraftScopeState ℚ))) (fun _ => none)
      (0 : ℕ)).1 0 = some emptyScopeState :=
  (C10_modify_event true (fun _ => some 5)
    (fun _ => (none : Option (AircraftScopeState ℚ))) (fun _ => none) 0
    (fun g h => by simp at h) (fun g h => by
      simp only [Option.some.injEq] at h; omega)).1 rfl

/-- C9 counterexample: `Duplicate` does not copy the offsets (or bounds, or
the text-current flag): the duplicated entry for an aircraft whose original
state has `manualOffset = (10,10)` carries a zero manual offset, so the
duplicate's state is not equal in content to the original's. -/
theorem C9_counterexample :
    duplicateAircraftMap [(0, st9)] = [(0, dupScopeState st9)] ∧
      (dupScopeState st9).datablockManualOffset = ⟨0, 0⟩ ∧
      st9.datablockManualOffset = ⟨10, 10⟩ ∧ dupScopeState st9 ≠ st9 := by
  decide

/-- C9 (amended): duplicating a display instance rebuilds the store with one
fresh `AircraftScopeState` per tracked aircraft (same key) copying only the
ghost flag and the cached datablock text, all other fields reset to their
zero values; its ghost-link entries are re-created to point at freshly
copied ghost aircraft records, which are distinct from every aircraft keyed
in the duplicated store (in particular the re-created links do not alias
the original ghost records, and have no state entry of their own). -/
theorem C9_duplicate (m : List (ℕ × AircraftScopeState K)) (g : List (ℕ × ℕ))
    (freshBase : ℕ) (hfresh : ∀ p ∈ m, p.1 < freshBase) :
    (∀ p ∈ m, (p.1, dupScopeState p.2) ∈ duplicateAircraftMap m) ∧
    (∀ q ∈ duplicateAircraftMap m, ∃ p ∈ m, q.1 = p.1 ∧
      q.2.isGhost = p.2.isGhost ∧ q.2.datablockText = p.2.datablockText ∧
      q.2.datablockAutomaticOffset = ⟨0, 0⟩ ∧
      q.2.datablockManualOffset = ⟨0, 0⟩ ∧
      q.2.datablockTextCurrent = false ∧
      q.2.datablockBounds = ⟨⟨0, 0⟩, ⟨0, 0⟩⟩) ∧
    (∀ q ∈ duplicateGhostMap g freshBase, ∀ p ∈ duplicateAircraftMap m,
      q.2 ≠ p.1) := by
  refine ⟨?_, ?_, ?_⟩
  · intro p hp
    exact List.mem_map.mpr ⟨p, hp, rfl⟩
  · intro q hq
    rcases List.mem_map.mp hq with ⟨p, hp, rfl⟩
    exact ⟨p, hp, rfl, rfl, rfl, rfl, rfl, rfl, rfl⟩
  · intro q hq p hp
    rcases List.mem_map.mp hq with ⟨e, _, rfl⟩
    rcases List.mem_map.mp hp with ⟨p0, hp0, rfl⟩
    have h1 : p0.1 < freshBase := hfresh p0 hp0
    exact fun hcontra => by
      simp only at hcontra
      omega

/-- C9 witness: for a one-aircraft store with a ghost link and fresh handles
starting at 10, the re-created ghost handle (10) differs from the single
duplicated store key (0). -/
theorem C9_duplicate_witness :
    ((0 : ℕ), (10 : ℕ)).2 ≠ ((0 : ℕ), dupScopeState st9).1 :=
  (C9_duplicate [((0 : ℕ), st9)] [(0, 7)] 10 (by decide)).2.2 (0, 10)
    (by with_unfolding_all decide) (0, dupScopeState st9)
    (by with_unfolding_all decide)

/-- C6 counterexample: for an aircraft heading 45° (second sector) the source
connects the datablock at its top-left corner `(p0.x, p1.y)`, not at the
bottom-left corner `(p0.x, p0.y)` the claim's sector list names. -/
theorem C6_counterexample :
    datablockConnectP (⟨⟨-5, -15⟩, ⟨20, 5⟩⟩ : Extent2D ℚ) 45 =
      (⟨-5, 5⟩, true) ∧
    claimConnectP (⟨⟨-5, -15⟩, ⟨20, 5⟩⟩ : Extent2D ℚ) 45 = (⟨-5, -15⟩, true) ∧
    datablockConnectP (⟨⟨-5, -15⟩, ⟨20, 5⟩⟩ : Extent2D ℚ) 45 ≠
      claimConnectP (⟨⟨-5, -15⟩, ⟨20, 5⟩⟩ : Extent2D ℚ) 45 := by
  with_unfolding_all decide

/-- C6 (amended): for every heading with `heading + 15 ∈ [0, 360]` (one
conditional wrap, with `heading + 15 = 360` falling in the final sector
rather than wrapping to 0) the source's anchor equals the corrected sector
table `amendedConnectP` — sector widths 30/60/30/90/30/60/30/60 mapping to
left-edge-midpoint, top-left-corner, top-edge-midpoint, bottom-left-corner,
left-edge-midpoint, top-left-corner, bottom-edge-midpoint,
bottom-left-corner.  Moreover `offsetSelfOnly` translates the padded box so
the chosen corner anchor lands exactly on the track position, while
edge-midpoint anchors get the additional 3-unit outward nudge along the
offset direction. -/
theorem C6_anchor_policy (bbox : Extent2D K) (heading : K)
    (h0 : 0 ≤ heading + 15) (h1 : heading + 15 ≤ 360) (sq : K → K)
    (st : AircraftScopeState K) (acHeading rotationAngle : K) (pos : V2 K) :
    datablockConnectP bbox heading = amendedConnectP bbox (heading + 15) ∧
    ((datablockConnectP (st.datablockBounds.Expand 5)
        (acHeading + rotationAngle)).2 = true →
      offsetSelfOnly sq acHeading rotationAngle st =
        scale2f (-1) (datablockConnectP (st.datablockBounds.Expand 5)
          (acHeading + rotationAngle)).1 ∧
      add2f (add2f pos (offsetSelfOnly sq acHeading rotationAngle st))
        (datablockConnectP (st.datablockBounds.Expand 5)
          (acHeading + rotationAngle)).1 = pos) ∧
    ((datablockConnectP (st.datablockBounds.Expand 5)
        (acHeading + rotationAngle)).2 = false →
      offsetSelfOnly sq acHeading rotationAngle st =
        add2f (scale2f (-1) (datablockConnectP (st.datablockBounds.Expand 5)
            (acHeading + rotationAngle)).1)
          (scale2f 3 (normalize2f sq
            (scale2f (-1) (datablockConnectP (st.datablockBounds.Expand 5)
              (acHeading + rotationAngle)).1)))) := by
  refine ⟨?_, ?_, ?_⟩
  · have hw1 : ¬ heading + 15 < 0 := not_lt.mpr h0
    have hw2 : ¬ heading + 15 > 360 := not_lt.mpr h1
    simp only [datablockConnectP, amendedConnectP, hw1, hw2, if_false]
  · intro hc
    simp only [offsetSelfOnly, hc, if_true]
    refine ⟨trivial, ?_⟩
    rcases pos with ⟨px, py⟩
    simp only [add2f, scale2f, V2.mk.injEq]
    constructor <;> ring
  · intro hc
    simp only [offsetSelfOnly, hc, Bool.false_eq_true, if_false]

/-- C6 witness: at heading 0 the wrap hypotheses hold and the source's anchor
for a concrete box equals the corrected first-sector anchor, the left-edge
midpoint. -/
theorem C6_anchor_policy_witness :
    datablockConnectP (⟨⟨-5, -15⟩, ⟨20, 5⟩⟩ : Extent2D ℚ) 0 =
      amendedConnectP (⟨⟨-5, -15⟩, ⟨20, 5⟩⟩ : Extent2D ℚ) (0 + 15) ∧
    amendedConnectP (⟨⟨-5, -15⟩, ⟨20, 5⟩⟩ : Extent2D ℚ) (0 + 15) =
      (⟨-5, -5⟩, false) :=
  ⟨(C6_anchor_policy (⟨⟨-5, -15⟩, ⟨20, 5⟩⟩ : Extent2D ℚ) 0 (by norm_num)
      (by norm_num) id ⟨false, ⟨0, 0⟩, ⟨0, 0⟩, ("", ""), false,
        ⟨⟨0, 0⟩, ⟨0, 0⟩⟩⟩ 0 0 ⟨0, 0⟩).1, by with_unfolding_all decide⟩

/-- C5 counterexample: with both aircraft on the same arrival, 5 units apart
and aligned in heading, the engine selects candidate 0 for aircraft 1 even
though their altitudes differ by 9000 units: the source only bounds the
*signed* difference `leading − trailing < 3000`, so a much lower-flying
leader qualifies, contradicting the claim's "altitude difference is below
3000 units". -/
theorem C5_counterexample :
    mitClosest (fun _ _ => (5 : ℚ)) (fun _ _ => 0) arrC5 1 = some (0, 5) ∧
      ¬ claimC5Qualified (fun _ _ => (5 : ℚ)) (fun _ _ => 0) arrC5 1 0 := by
  with_unfolding_all decide

/-- The running-minimum invariant of the `drawMIT` candidate scan over the
first `m` indices. -/
theorem mitSearch_invariant (nmdist bearing : ℕ → ℕ → K)
    (arr : List (MITAircraft K)) (i m : ℕ) :
    ((((List.range m).foldl (mitSearchStep nmdist bearing arr i)
        (20, none)).2 = none →
      ((List.range m).foldl (mitSearchStep nmdist bearing arr i)
        (20, none)).1 = 20 ∧
      ∀ k < m, mitCandidate bearing arr i k →
        ¬ nmdist (arrGet arr i).pos (arrGet arr k).pos < 20)) ∧
    (∀ j, (((List.range m).foldl (mitSearchStep nmdist bearing arr i)
        (20, none)).2 = some j) →
      j < m ∧ mitCandidate bearing arr i j ∧
      ((List.range m).foldl (mitSearchStep nmdist bearing arr i)
        (20, none)).1 = nmdist (arrGet arr i).pos (arrGet arr j).pos ∧
      ((List.range m).foldl (mitSearchStep nmdist bearing arr i)
        (20, none)).1 < 20 ∧
      ∀ k < m, mitCandidate bearing arr i k →
        ((List.range m).foldl (mitSearchStep nmdist bearing arr i)
          (20, none)).1 ≤ nmdist (arrGet arr i).pos (arrGet arr k).pos) := by
  induction m with
  | zero => simp
  | succ m ih =>
    rw [List.range_succ, List.foldl_append, List.foldl_cons, List.foldl_nil]
    set acc := (List.range m).foldl (mitSearchStep nmdist bearing arr i)
      (20, none) with hacc
    rcases ih with ⟨ihn, ihs⟩
    by_cases h1 : i = m ∨ (arrGet arr m).arrive ≠ (arrGet arr i).arrive
    · have hstep : mitSearchStep nmdist bearing arr i acc m = acc := by
        simp only [mitSearchStep]
        rw [if_pos h1]
      rw [hstep]
      have hnotc : ¬ mitCandidate bearing arr i m := by
        intro hc
        rcases hc with ⟨hne, harr, _⟩
        rcases h1 with h1 | h1
        · exact hne h1.symm
        · exact h1 harr
      constructor
      · intro hn
        rcases ihn hn with ⟨h20, hall⟩
        refine ⟨h20, ?_⟩
        intro k hk hq
        rcases Nat.lt_succ_iff_lt_or_eq.mp hk with hk' | rfl
        · exact hall k hk' hq
        · exact absurd hq hnotc
      · intro j hj
        rcases ihs j hj with ⟨hjm, hq, hd, hlt, hmin⟩
        refine ⟨Nat.lt_succ_of_lt hjm, hq, hd, hlt, ?_⟩
        intro k hk hq'
        rcases Nat.lt_succ_iff_lt_or_eq.mp hk with hk' | rfl
        · exact hmin k hk' hq'
        · exact absurd hq' hnotc
    · have h1a : i ≠ m := fun e => h1 (Or.inl e)
      have h1b : (arrGet arr m).arrive = (arrGet arr i).arrive :=
        not_not.mp (fun hc => h1 (Or.inr hc))
      by_cases h2 : nmdist (arrGet arr i).pos (arrGet arr m).pos < acc.1 ∧
          inTrail bearing (arrGet arr i) (arrGet arr m)
      · have hstep : mitSearchStep nmdist bearing arr i acc m =
            (nmdist (arrGet arr i).pos (arrGet arr m).pos, some m) := by
          simp only [mitSearchStep]
          rw [if_neg h1, if_pos h2]
        rw [hstep]
        have hcand : mitCandidate bearing arr i m := ⟨Ne.symm h1a, h1b, h2.2⟩
        have hacc20 : acc.1 ≤ 20 := by
          cases hn : acc.2 with
          | none => exact le_of_eq (ihn hn).1
          | some j => exact le_of_lt (ihs j hn).2.2.2.1
        constructor
        · intro hcontra
          simp at hcontra
        · intro j hj
          simp only [Option.some.injEq] at hj
          subst hj
          refine ⟨Nat.lt_succ_self m, hcand, rfl, lt_of_lt_of_le h2.1 hacc20, ?_⟩
          intro k hk hq'
          rcases Nat.lt_succ_iff_lt_or_eq.mp hk with hk' | rfl
          · cases hn : acc.2 with
            | none =>
              have h20 : (20 : K) ≤ nmdist (arrGet arr i).pos
                  (arrGet arr k).pos := not_lt.mp ((ihn hn).2 k hk' hq')
              exact le_of_lt (lt_of_lt_of_le h2.1 (le_trans hacc20 h20))
            | some j' =>
              exact le_of_lt (lt_of_lt_of_le h2.1
                ((ihs j' hn).2.2.2.2 k hk' hq'))
          · exact le_refl _
      · have hstep : mitSearchStep nmdist bearing arr i acc m = acc := by
          simp only [mitSearchStep]
          rw [if_neg h1, if_neg h2]
        rw [hstep]
        have hnd : ¬ nmdist (arrGet arr i).pos (arrGet arr m).pos < acc.1 ∨
            ¬ inTrail bearing (arrGet arr i) (arrGet arr m) := not_and_or.mp h2
        constructor
        · intro hn
          rcases ihn hn with ⟨h20, hall⟩
          refine ⟨h20, ?_⟩
          intro k hk hq
          rcases Nat.lt_succ_iff_lt_or_eq.mp hk with hk' | rfl
          · exact hall k hk' hq
          · rcases hnd with hnd | hnd
            · rw [h20] at hnd
              exact hnd
            · exact absurd hq.2.2 hnd
        · intro j hj
          rcases ihs j hj with ⟨hjm, hq, hd, hlt, hmin⟩
          refine ⟨Nat.lt_succ_of_lt hjm, hq, hd, hlt, ?_⟩
          intro k hk hq'
          rcases Nat.lt_succ_iff_lt_or_eq.mp hk with hk' | rfl
          · exact hmin k hk' hq'
          · rcases hnd with hnd | hnd
            · exact le_of_not_lt hnd
            · exact absurd hq'.2.2 hnd

/-- C5 (amended): when the automatic-MIT search for arrival `i` of the
distance-sorted list (the source skips only index 0, the arrival closest of
*all* configured airports) returns a predecessor, that predecessor is a
different aircraft bound for the same destination, within 20 distance-units
at the returned lateral distance, whose own heading differs from the
bearing from *it* to the processed aircraft by less than 150°, and whose
altitude minus the processed aircraft's altitude (signed, not absolute) is
below 3000; among all such candidates it has minimal lateral distance, even
when a laterally closer but disqualified aircraft exists.  When the search
returns nothing, no qualified candidate lies within 20 units. -/
theorem C5_mit_selection (nmdist bearing : ℕ → ℕ → K)
    (arr : List (MITAircraft K)) (i : ℕ) :
    (∀ j d, mitClosest nmdist bearing arr i = some (j, d) →
      mitQualified bearing arr i j ∧
      d = nmdist (arrGet arr i).pos (arrGet arr j).pos ∧ d < 20 ∧
      ∀ k, mitQualified bearing arr i k →
        d ≤ nmdist (arrGet arr i).pos (arrGet arr k).pos) ∧
    (mitClosest nmdist bearing arr i = none →
      ∀ k, mitQualified bearing arr i k →
        ¬ nmdist (arrGet arr i).pos (arrGet arr k).pos < 20) := by
  have hinv := mitSearch_invariant nmdist bearing arr i arr.length
  have hm : mitClosest nmdist bearing arr i =
      (((List.range arr.length).foldl (mitSearchStep nmdist bearing arr i)
        (20, none)).2).map
        (fun j => (j, ((List.range arr.length).foldl
          (mitSearchStep nmdist bearing arr i) (20, none)).1)) := rfl
  rcases hr : ((List.range arr.length).foldl
      (mitSearchStep nmdist bearing arr i) (20, none)).2 with _ | j
  · rw [hr, Option.map_none'] at hm
    constructor
    · intro j d hjd
      rw [hm] at hjd
      exact absurd hjd (by simp)
    · intro _ k hk
      exact ((hinv.1) hr).2 k hk.1 hk.2
  · rw [hr, Option.map_some'] at hm
    rcases hinv.2 j hr with ⟨hjm, hq, hd, hlt, hmin⟩
    constructor
    · intro j' d hjd
      rw [hm] at hjd
      simp only [Option.some.injEq, Prod.mk.injEq] at hjd
      rcases hjd with ⟨rfl, rfl⟩
      exact ⟨⟨hjm, hq⟩, hd, hlt, fun k hk => hmin k hk.1 hk.2⟩
    · intro hcontra
      rw [hm] at hcontra
      exact absurd hcontra (by simp)

/-- C5 witness: in the counterexample scenario the selected predecessor is a
qualified candidate at distance 5 < 20. -/
theorem C5_mit_selection_witness :
    mitQualified (fun _ _ => (0 : ℚ)) arrC5 1 0 ∧ (5 : ℚ) < 20 :=
  ⟨((C5_mit_selection (fun _ _ => (5 : ℚ)) (fun _ _ => 0) arrC5 1).1 0 5
      (by with_unfolding_all decide)).1,
    by norm_num⟩

/-! ## Claim C7: warning/violation pairs suppress MIT lines -/

/-- The per-frame warning set is symmetric: it stores both orderings of each
flagged pair. -/
theorem rangeWarningsOf_symm {ws vs : List (ℕ × ℕ)} {a b : ℕ}
    (h : (a, b) ∈ rangeWarningsOf ws vs) : (b, a) ∈ rangeWarningsOf ws vs := by
  unfold rangeWarningsOf at h ⊢
  simp only [List.mem_append, List.mem_map, Prod.mk.injEq] at h ⊢
  rcases h with ((h | h) | h) | h
  · exact Or.inl (Or.inl (Or.inr ⟨(a, b), h, rfl, rfl⟩))
  · rcases h with ⟨⟨p1, p2⟩, hp, hp1, hp2⟩
    subst hp1; subst hp2
    exact Or.inl (Or.inl (Or.inl hp))
  · exact Or.inr ⟨(a, b), h, rfl, rfl⟩
  · rcases h with ⟨⟨p1, p2⟩, hp, hp1, hp2⟩
    subst hp1; subst hp2
    exact Or.inl (Or.inr hp)

/-- C7: in both the automatic and the explicit-sequence MIT modes, a pair of
aircraft present in the current frame's symmetric warning/violation set (in
either orientation) produces no MIT line in the same frame. -/
theorem C7_mit_suppression (nmdist bearing : ℕ → ℕ → K)
    (ws vs : List (ℕ × ℕ)) (arr seq : List (MITAircraft K)) (a b : ℕ)
    (hab : (a, b) ∈ rangeWarningsOf ws vs) :
    (∀ e ∈ autoMITLines nmdist bearing (rangeWarningsOf ws vs) arr,
      ¬(e.1 = a ∧ e.2.1 = b) ∧ ¬(e.1 = b ∧ e.2.1 = a)) ∧
    (∀ e ∈ explicitMITLines nmdist (rangeWarningsOf ws vs) seq,
      ¬(e.1 = a ∧ e.2.1 = b) ∧ ¬(e.1 = b ∧ e.2.1 = a)) := by
  have hba : (b, a) ∈ rangeWarningsOf ws vs := rangeWarningsOf_symm hab
  constructor
  · intro e he
    rcases List.mem_filterMap.mp he with ⟨i, _, hi⟩
    rcases hc : mitClosest nmdist bearing arr i with _ | jd
    · rw [hc] at hi
      simp at hi
    · rw [hc] at hi
      rcases jd with ⟨j, d⟩
      simp only at hi
      by_cases hw : ((arrGet arr i).id, (arrGet arr j).id) ∈
          rangeWarningsOf ws vs
      · rw [if_pos hw] at hi
        simp at hi
      · rw [if_neg hw] at hi
        simp only [Option.some.injEq] at hi
        subst hi
        constructor
        · rintro ⟨rfl, rfl⟩
          exact hw hab
        · rintro ⟨rfl, rfl⟩
          exact hw hba
  · intro e he
    rcases List.mem_filterMap.mp he with ⟨i, _, hi⟩
    simp only at hi
    by_cases hw : ((arrGet seq (i - 1)).id, (arrGet seq i).id) ∈
        rangeWarningsOf ws vs
    · rw [if_pos hw] at hi
      simp at hi
    · rw [if_neg hw] at hi
      simp only [Option.some.injEq] at hi
      subst hi
      constructor
      · rintro ⟨rfl, rfl⟩
        exact hw hab
      · rintro ⟨rfl, rfl⟩
        exact hw hba

/-- C7 witness: the flagged pair (1, 9) is in the symmetric warning set, the
automatic engine emits the line (2, 1, 5) for `arrC7`, and the suppression
theorem instantiated at that line yields its (true) conclusion. -/

theorem C7_mit_suppression_witness :
    ((1 : ℕ), (9 : ℕ)) ∈ rangeWarningsOf [(1, 9)] [] ∧
    ((2 : ℕ), (1 : ℕ), (5 : ℚ)) ∈
      autoMITLines (fun _ _ => (5 : ℚ)) (fun _ _ => 0)
        (rangeWarningsOf [(1, 9)] []) arrC7 ∧
    (¬((2 : ℕ) = 1 ∧ (1 : ℕ) = 9) ∧ ¬((2 : ℕ) = 9 ∧ (1 : ℕ) = 1)) :=
  ⟨by with_unfolding_all decide, by with_unfolding_all decide,
    (C7_mit_suppression (fun _ _ => (5 : ℚ)) (fun _ _ => 0) [(1, 9)] []
      arrC7 [] 1 9 (by with_unfolding_all decide)).1 (2, 1, 5)
      (by with_unfolding_all decide)⟩

/-! ## Layout-engine invariants shared by the placement claims -/

theorem Offset_Offset (e : Extent2D K) (a b : V2 K) :
    (e.Offset a).Offset b = e.Offset (add2f a b) := by
  rcases e with ⟨⟨x0, y0⟩, ⟨x1, y1⟩⟩
  rcases a with ⟨ax, ay⟩
  rcases b with ⟨bx, by'⟩
  simp [Extent2D.Offset, add2f, add_assoc]

theorem Frozen.comp {n : ℕ} {f g : LayoutState K n → LayoutState K n}
    (hf : Frozen f) (hg : Frozen g) : Frozen (fun s => f (g s)) := by
  intro s i h
  rcases hg s i h with ⟨h1, h2, h3⟩
  rcases hf (g s) i h3 with ⟨h4, h5, h6⟩
  exact ⟨h4.trans h1, h5.trans h2, h6⟩

theorem Frozen.iterate {n : ℕ} {f : LayoutState K n → LayoutState K n}
    (hf : Frozen f) : ∀ k, Frozen (f^[k]) := by
  intro k
  induction k with
  | zero => exact fun s i h => ⟨rfl, rfl, h⟩
  | succ k ih =>
    intro s i h
    rw [Function.iterate_succ_apply']
    rcases ih s i h with ⟨h1, h2, h3⟩
    rcases hf (f^[k] s) i h3 with ⟨h4, h5, h6⟩
    exact ⟨h4.trans h1, h5.trans h2, h6⟩

theorem Frozen.foldl {n : ℕ} {step : LayoutState K n → Fin n → LayoutState K n}
    (hstep : ∀ j, Frozen (fun s => step s j)) :
    ∀ (l : List (Fin n)), Frozen (fun s => l.foldl step s) := by
  intro l
  induction l with
  | nil => exact fun s i h => ⟨rfl, rfl, h⟩
  | cons j l ih =>
    intro s i h
    rcases hstep j s i h with ⟨h1, h2, h3⟩
    rcases ih (step s j) i h3 with ⟨h4, h5, h6⟩
    exact ⟨h4.trans h1, h5.trans h2, h6⟩

theorem layoutPass2Step_frozen (sq : K → K) (rotationAngle : K) {n : ℕ}
    (ac : Fin n → AC K) (j : Fin n) :
    Frozen (fun s => layoutPass2Step sq rotationAngle ac s j) := by
  intro s i h
  simp only [layoutPass2Step]
  split_ifs with h1 h2 <;>
    first
      | exact ⟨rfl, rfl, h⟩
      | · have hij : i ≠ j := fun e => absurd (e ▸ h) h1
          refine ⟨Function.update_noteq hij _ _, Function.update_noteq hij _ _,
            ?_⟩
          show Function.update s.placed j true i = true
          rw [Function.update_noteq hij]
          exact h

theorem layoutPass3Seed_frozen (sq : K → K) (rotationAngle : K) {n : ℕ}
    (ac : Fin n → AC K) :
    Frozen (fun s => layoutPass3Seed sq rotationAngle ac s) := by
  intro s i h
  have hcond : ¬(s.placed i = false ∧
      (s.st i).datablockAutomaticOffset = ⟨0, 0⟩) := by
    rintro ⟨hf, _⟩
    rw [h] at hf
    simp at hf
  refine ⟨?_, rfl, h⟩
  show (if s.placed i = false ∧
      (s.st i).datablockAutomaticOffset = ⟨0, 0⟩ then
      { s.st i with datablockAutomaticOffset :=
          offsetSelfOnly sq (ac i).heading rotationAngle (s.st i) }
    else s.st i) = s.st i
  rw [if_neg hcond]

theorem layoutPass3Init_frozen {n : ℕ} (ac : Fin n → AC K) :
    Frozen (fun s => layoutPass3Init ac s) := by
  intro s i h
  refine ⟨rfl, ?_, h⟩
  show (if s.placed i = true then s.bounds i
    else ((s.st i).WindowDatablockBounds (ac i).pos).Expand 5) = s.bounds i
  rw [if_pos h]

theorem relaxStep_frozen (sq : K → K) {n : ℕ} (j : Fin n) :
    Frozen (fun s => relaxStep sq s j) := by
  intro s i h
  simp only [relaxStep]
  split_ifs with h1 <;>
    first
      | exact ⟨rfl, rfl, h⟩
      | · have hij : i ≠ j := fun e => absurd (e ▸ h) h1
          exact ⟨Function.update_noteq hij _ _, Function.update_noteq hij _ _,
            h⟩

theorem attractStep_frozen (sq : K → K) (rotationAngle : K) {n : ℕ}
    (ac : Fin n → AC K) (p : LayoutState K n × Bool) (j i : Fin n)
    (h : p.1.placed i = true) :
    (attractStep sq rotationAngle ac p j).1.st i = p.1.st i ∧
    (attractStep sq rotationAngle ac p j).1.bounds i = p.1.bounds i ∧
    (attractStep sq rotationAngle ac p j).1.placed i = true := by
  simp only [attractStep]
  split_ifs with h1 h2 h3 <;>
    first
      | exact ⟨rfl, rfl, h⟩
      | · have hij : i ≠ j := fun e => absurd (e ▸ h) h1
          exact ⟨Function.update_noteq hij _ _, Function.update_noteq hij _ _,
            h⟩

theorem attractFold_frozen (sq : K → K) (rotationAngle : K) {n : ℕ}
    (ac : Fin n → AC K) (l : List (Fin n)) :
    ∀ (p : LayoutState K n × Bool) (i : Fin n), p.1.placed i = true →
      (l.foldl (attractStep sq rotationAngle ac) p).1.st i = p.1.st i ∧
      (l.foldl (attractStep sq rotationAngle ac) p).1.bounds i =
        p.1.bounds i ∧
      (l.foldl (attractStep sq rotationAngle ac) p).1.placed i = true := by
  induction l with
  | nil => exact fun p i h => ⟨rfl, rfl, h⟩
  | cons j l ih =>
    intro p i h
    rcases attractStep_frozen sq rotationAngle ac p j i h with ⟨h1, h2, h3⟩
    rcases ih (attractStep sq rotationAngle ac p j) i h3 with ⟨h4, h5, h6⟩
    exact ⟨h4.trans h1, h5.trans h2, h6⟩

theorem attractLoop_frozen (sq : K → K) (rotationAngle : K) {n : ℕ}
    (ac : Fin n → AC K) (fuel : ℕ) :
    Frozen (fun s => attractLoop sq rotationAngle ac fuel s) := by
  induction fuel with
  | zero => exact fun s i h => ⟨rfl, rfl, h⟩
  | succ fuel ih =>
    intro s i h
    have h1 : (attractPass sq rotationAngle ac s).1.st i = s.st i ∧
        (attractPass sq rotationAngle ac s).1.bounds i = s.bounds i ∧
        (attractPass sq rotationAngle ac s).1.placed i = true :=
      attractFold_frozen sq rotationAngle ac (List.finRange n) (s, false) i h
    simp only [attractLoop]
    by_cases hmv : (attractPass sq rotationAngle ac s).2 = true
    · rw [if_pos hmv]
      rcases ih (attractPass sq rotationAngle ac s).1 i h1.2.2 with
        ⟨h4, h5, h6⟩
      exact ⟨h4.trans h1.1, h5.trans h1.2.1, h6⟩
    · rw [if_neg hmv]
      exact h1

theorem layoutPass2_frozen (sq : K → K) (rotationAngle : K) {n : ℕ}
    (ac : Fin n → AC K) :
    Frozen (fun s : LayoutState K n => layoutPass2 sq rotationAngle ac s) :=
  Frozen.foldl (fun j => layoutPass2Step_frozen sq rotationAngle ac j) _

theorem relaxPhase_frozen (sq : K → K) {n : ℕ} :
    Frozen (fun s : LayoutState K n => relaxPhase sq s) := by
  have hiter : Frozen (fun s : LayoutState K n => relaxIter sq s) :=
    Frozen.foldl (fun j => relaxStep_frozen sq j) _
  unfold relaxPhase
  exact Frozen.comp hiter (Frozen.iterate hiter 19)

/-- Everything after the greedy pass freezes placed aircraft. -/
theorem layoutAfterPass2_frozen (sq : K → K) (rotationAngle : K) {n : ℕ}
    (ac : Fin n → AC K) (fuel : ℕ) :
    Frozen (fun s : LayoutState K n =>
      attractLoop sq rotationAngle ac fuel
        (relaxPhase sq
          (layoutPass3Init ac
            (layoutPass3Seed sq rotationAngle ac s)))) :=
  Frozen.comp (attractLoop_frozen sq rotationAngle ac fuel)
    (Frozen.comp (relaxPhase_frozen sq)
      (Frozen.comp (layoutPass3Init_frozen ac)
        (layoutPass3Seed_frozen sq rotationAngle ac)))

/-- Everything after the first pass freezes placed aircraft. -/
theorem layoutRest_frozen (sq : K → K) (rotationAngle : K) {n : ℕ}
    (ac : Fin n → AC K) (fuel : ℕ) :
    Frozen (fun s : LayoutState K n =>
      attractLoop sq rotationAngle ac fuel
        (relaxPhase sq
          (layoutPass3Init ac
            (layoutPass3Seed sq rotationAngle ac
              (layoutPass2 sq rotationAngle ac s))))) := by
  intro s i h
  have h2 := layoutPass2_frozen sq rotationAngle ac s i h
  have h5 := layoutAfterPass2_frozen sq rotationAngle ac fuel
    (layoutPass2 sq rotationAngle ac s) i h2.2.2
  exact ⟨h5.1.trans h2.1, h5.2.1.trans h2.2.1, h5.2.2⟩

/-! ## Claim C1: manual offsets pin the datablock -/

/-- C1: an aircraft with a non-zero manual offset is never displaced by any
placement operation.  In self-only layout its automatic offset is zeroed and
nothing else changes; in a full automatic pass (any attraction fuel) its
scope state is left exactly as it was, its entry in the bounds array stays
the padded manually-offset box from the pinning pass, and its window
datablock bounds remain the local bounds translated by track position plus
manual offset — the automatic offset is ignored. -/
theorem C1_manual_pin (sq : K → K) (rotationAngle : K) {n : ℕ}
    (ac : Fin n → AC K) (store : Fin n → AircraftScopeState K) (fuel : ℕ)
    (i : Fin n) (hm : manualNonzero (store i)) (a : AC K)
    (s : AircraftScopeState K) (hs : manualNonzero s) :
    layoutSelfOnly sq rotationAngle a s =
      { s with datablockAutomaticOffset := ⟨0, 0⟩ } ∧
    (layoutAutomatic sq rotationAngle ac store fuel).st i = store i ∧
    (layoutAutomatic sq rotationAngle ac store fuel).bounds i =
      ((store i).WindowDatablockBounds (ac i).pos).Expand 5 ∧
    ((layoutAutomatic sq rotationAngle ac store fuel).st i).WindowDatablockBounds
        (ac i).pos =
      (store i).datablockBounds.Offset
        (add2f (ac i).pos (store i).datablockManualOffset) := by
  have hself : layoutSelfOnly sq rotationAngle a s =
      { s with datablockAutomaticOffset := ⟨0, 0⟩ } := by
    unfold layoutSelfOnly
    rw [if_pos hs]
  set s1 := layoutPass1 ac (initLayout store) with hs1
  have h1p : s1.placed i = true := by
    simp [hs1, layoutPass1, initLayout, hm]
  have h1st : s1.st i = store i := rfl
  have h1b : s1.bounds i =
      ((store i).WindowDatablockBounds (ac i).pos).Expand 5 := by
    simp [hs1, layoutPass1, initLayout, hm]
  have hfr := layoutRest_frozen sq rotationAngle ac fuel s1 i h1p
  have hfin : layoutAutomatic sq rotationAngle ac store fuel =
      attractLoop sq rotationAngle ac fuel
        (relaxPhase sq
          (layoutPass3Init ac
            (layoutPass3Seed sq rotationAngle ac
              (layoutPass2 sq rotationAngle ac s1)))) := rfl
  rw [hfin]
  refine ⟨hself, hfr.1.trans h1st, hfr.2.1.trans h1b, ?_⟩
  rw [hfr.1.trans h1st]
  have hm' : (store i).datablockManualOffset.x ≠ 0 ∨
      (store i).datablockManualOffset.y ≠ 0 := hm
  simp only [AircraftScopeState.WindowDatablockBounds]
  rw [if_pos hm', Offset_Offset]

/-- C1 witness: a single pinned aircraft with manual offset (10, 10) resolves
to its local bounds translated by track position plus (10, 10). -/
theorem C1_manual_pin_witness :
    ((layoutAutomatic (fun q => q) 0 (fun _ : Fin 1 => ⟨⟨100, 200⟩, 0⟩)
        (fun _ => st1m) 1).st ⟨0, by omega⟩).WindowDatablockBounds ⟨100, 200⟩ =
      st1m.datablockBounds.Offset (add2f ⟨100, 200⟩ ⟨10, 10⟩) :=
  (C1_manual_pin (fun q => q) 0 (fun _ : Fin 1 => ⟨⟨100, 200⟩, 0⟩)
    (fun _ => st1m) 1 ⟨0, by omega⟩ (by with_unfolding_all decide)
    ⟨⟨0, 0⟩, 0⟩ st1m (by with_unfolding_all decide)).2.2.2

theorem layoutPass2Step_sep (sq : K → K) (rotationAngle : K) {n : ℕ}
    (ac : Fin n → AC K) (P : Fin n → Bool) (s : LayoutState K n) (k : Fin n)
    (hs : PlacedSep P s) :
    PlacedSep P (layoutPass2Step sq rotationAngle ac s k) := by
  intro i j hij hi hj hP
  by_cases h1 : s.placed k = true
  · have he : layoutPass2Step sq rotationAngle ac s k = s := by
      simp only [layoutPass2Step]
      rw [if_pos h1]
    rw [he] at hi hj ⊢
    exact hs i j hij hi hj hP
  · by_cases h2 : pass2Allowed s
        ((((s.st k).WindowDatablockBounds (ac k).pos).Expand 5).Offset
          (sub2f (offsetSelfOnly sq (ac k).heading rotationAngle (s.st k))
            (s.st k).datablockAutomaticOffset))
    · have he : layoutPass2Step sq rotationAngle ac s k =
          { st := Function.update s.st k
              { s.st k with datablockAutomaticOffset :=
                  offsetSelfOnly sq (ac k).heading rotationAngle (s.st k) },
            bounds := Function.update s.bounds k
              ((((s.st k).WindowDatablockBounds (ac k).pos).Expand 5).Offset
                (sub2f (offsetSelfOnly sq (ac k).heading rotationAngle
                  (s.st k)) (s.st k).datablockAutomaticOffset)),
            placed := Function.update s.placed k true } := by
        simp only [layoutPass2Step]
        rw [if_neg h1, if_pos h2]
      rw [he] at hi hj ⊢
      have hi' : Function.update s.placed k true i = true := hi
      have hj' : Function.update s.placed k true j = true := hj
      by_cases hik : i = k
      · subst hik
        have hjk : j ≠ i := fun e => hij e.symm
        have hj2 : s.placed j = true := by
          rw [Function.update_noteq hjk] at hj'
          exact hj'
        show ¬ Overlaps (Function.update s.bounds i _ i)
          (Function.update s.bounds i _ j)
        rw [Function.update_same, Function.update_noteq hjk]
        exact h2 j hj2
      · have hi2 : s.placed i = true := by
          rw [Function.update_noteq hik] at hi'
          exact hi'
        by_cases hjk : j = k
        · subst hjk
          show ¬ Overlaps (Function.update s.bounds j _ i)
            (Function.update s.bounds j _ j)
          rw [Function.update_noteq hik, Function.update_same]
          intro hov
          exact h2 i hi2 (Overlaps.symm hov)
        · have hj2 : s.placed j = true := by
            rw [Function.update_noteq hjk] at hj'
            exact hj'
          show ¬ Overlaps (Function.update s.bounds k _ i)
            (Function.update s.bounds k _ j)
          rw [Function.update_noteq hik, Function.update_noteq hjk]
          exact hs i j hij hi2 hj2 hP
    · have he : layoutPass2Step sq rotationAngle ac s k = s := by
        simp only [layoutPass2Step]
        rw [if_neg h1, if_neg h2]
      rw [he] at hi hj ⊢
      exact hs i j hij hi hj hP

theorem layoutPass2_sep (sq : K → K) (rotationAngle : K) {n : ℕ}
    (ac : Fin n → AC K) (P : Fin n → Bool) :
    ∀ (l : List (Fin n)) (s : LayoutState K n), PlacedSep P s →
      PlacedSep P (l.foldl (layoutPass2Step sq rotationAngle ac) s) := by
  intro l
  induction l with
  | nil => exact fun s hs => hs
  | cons k l ih =>
    intro s hs
    exact ih _ (layoutPass2Step_sep sq rotationAngle ac P s k hs)

/-! Placed flags are never modified after the greedy pass. -/

theorem relaxStep_placed (sq : K → K) {n : ℕ} (s : LayoutState K n)
    (j : Fin n) : (relaxStep sq s j).placed = s.placed := by
  simp only [relaxStep]
  split_ifs <;> rfl

theorem relaxFold_placed (sq : K → K) {n : ℕ} :
    ∀ (l : List (Fin n)) (s : LayoutState K n),
      (l.foldl (relaxStep sq) s).placed = s.placed := by
  intro l
  induction l with
  | nil => exact fun s => rfl
  | cons j l ih =>
    intro s
    rw [List.foldl_cons, ih, relaxStep_placed]

theorem relaxIter_placed (sq : K → K) {n : ℕ} (s : LayoutState K n) :
    (relaxIter sq s).placed = s.placed :=
  relaxFold_placed sq (List.finRange n) s

theorem relaxPhase_placed (sq : K → K) {n : ℕ} (s : LayoutState K n) :
    (relaxPhase sq s).placed = s.placed := by
  have hk : ∀ k (s : LayoutState K n), ((relaxIter sq)^[k] s).placed =
      s.placed := by
    intro k
    induction k with
    | zero => exact fun s => rfl
    | succ k ih =>
      intro s
      rw [Function.iterate_succ_apply', relaxIter_placed, ih]
  unfold relaxPhase
  rw [relaxIter_placed, hk]

theorem attractStep_placed (sq : K → K) (rotationAngle : K) {n : ℕ}
    (ac : Fin n → AC K) (p : LayoutState K n × Bool) (j : Fin n) :
    (attractStep sq rotationAngle ac p j).1.placed = p.1.placed := by
  simp only [attractStep]
  split_ifs <;> rfl

theorem attractFold_placed (sq : K → K) (rotationAngle : K) {n : ℕ}
    (ac : Fin n → AC K) :
    ∀ (l : List (Fin n)) (p : LayoutState K n × Bool),
      (l.foldl (attractStep sq rotationAngle ac) p).1.placed = p.1.placed := by
  intro l
  induction l with
  | nil => exact fun p => rfl
  | cons j l ih =>
    intro p
    rw [List.foldl_cons, ih, attractStep_placed]

theorem attractPass_placed (sq : K → K) (rotationAngle : K) {n : ℕ}
    (ac : Fin n → AC K) (s : LayoutState K n) :
    (attractPass sq rotationAngle ac s).1.placed = s.placed :=
  attractFold_placed sq rotationAngle ac (List.finRange n) (s, false)

theorem attractLoop_placed (sq : K → K) (rotationAngle : K) {n : ℕ}
    (ac : Fin n → AC K) :
    ∀ (fuel : ℕ) (s : LayoutState K n),
      (attractLoop sq rotationAngle ac fuel s).placed = s.placed := by
  intro fuel
  induction fuel with
  | zero => exact fun s => rfl
  | succ fuel ih =>
    intro s
    simp only [attractLoop]
    split_ifs with hmv
    · rw [ih, attractPass_placed]
    · rw [attractPass_placed]

set_option maxRecDepth 100000 in
/-- C3 counterexample: after a full automatic pass both manually-pinned
aircraft are marked placed, yet their (identical) padded boxes overlap —
the pinning pass checks no overlap among manual offsets, so "all Placed
boxes are pairwise non-overlapping" fails as stated. -/
theorem C3_counterexample :
    (layoutAutomatic (fun q => q) 0 (fun _ : Fin 2 => ⟨⟨100, 100⟩, 0⟩)
        storeC3x 1).placed 0 = true ∧
    (layoutAutomatic (fun q => q) 0 (fun _ : Fin 2 => ⟨⟨100, 100⟩, 0⟩)
        storeC3x 1).placed 1 = true ∧
    Overlaps
      ((layoutAutomatic (fun q => q) 0 (fun _ : Fin 2 => ⟨⟨100, 100⟩, 0⟩)
        storeC3x 1).bounds 0)
      ((layoutAutomatic (fun q => q) 0 (fun _ : Fin 2 => ⟨⟨100, 100⟩, 0⟩)
        storeC3x 1).bounds 1) := by
  with_unfolding_all decide

/-- C3 (amended): after a full automatic placement pass, any two aircraft
both marked placed — *except when both were manually pinned in the first
pass* — have non-overlapping padded boxes: every greedily accepted box was
checked against all boxes placed before it, and the relaxation and
attraction phases never move a placed box.  Two manually-pinned boxes are
placed unconditionally and may overlap each other; boxes still unplaced
after the bounded relaxation loop may also overlap. -/
theorem C3_placed_nonoverlap (sq : K → K) (rotationAngle : K) {n : ℕ}
    (ac : Fin n → AC K) (store : Fin n → AircraftScopeState K) (fuel : ℕ)
    (i j : Fin n) (hij : i ≠ j)
    (hi : (layoutAutomatic sq rotationAngle ac store fuel).placed i = true)
    (hj : (layoutAutomatic sq rotationAngle ac store fuel).placed j = true)
    (hnm : ¬(manualNonzero (store i) ∧ manualNonzero (store j))) :
    ¬ Overlaps ((layoutAutomatic sq rotationAngle ac store fuel).bounds i)
      ((layoutAutomatic sq rotationAngle ac store fuel).bounds j) := by
  set s1 := layoutPass1 ac (initLayout store) with hs1
  set s2 := layoutPass2 sq rotationAngle ac s1 with hs2
  have hfin : layoutAutomatic sq rotationAngle ac store fuel =
      attractLoop sq rotationAngle ac fuel
        (relaxPhase sq
          (layoutPass3Init ac (layoutPass3Seed sq rotationAngle ac s2))) := rfl
  have hplaced : (layoutAutomatic sq rotationAngle ac store fuel).placed =
      s2.placed := by
    rw [hfin, attractLoop_placed, relaxPhase_placed]
    rfl
  have hi2 : s2.placed i = true := by rw [← hplaced]; exact hi
  have hj2 : s2.placed j = true := by rw [← hplaced]; exact hj
  have hbase : PlacedSep s1.placed s1 := by
    intro a b _ ha hb hP
    rcases hP with hP | hP
    · rw [ha] at hP
      exact absurd hP (by simp)
    · rw [hb] at hP
      exact absurd hP (by simp)
  have hsep : PlacedSep s1.placed s2 :=
    layoutPass2_sep sq rotationAngle ac s1.placed (List.finRange n) s1 hbase
  have hP : s1.placed i = false ∨ s1.placed j = false := by
    have hPi : s1.placed i = decide (manualNonzero (store i)) := rfl
    have hPj : s1.placed j = decide (manualNonzero (store j)) := rfl
    rcases not_and_or.mp hnm with hm | hm
    · exact Or.inl (by rw [hPi]; exact decide_eq_false hm)
    · exact Or.inr (by rw [hPj]; exact decide_eq_false hm)
  have hnov : ¬ Overlaps (s2.bounds i) (s2.bounds j) :=
    hsep i j hij hi2 hj2 hP
  have hfr := layoutAfterPass2_frozen sq rotationAngle ac fuel s2
  rw [hfin]
  rw [(hfr i hi2).2.1, (hfr j hj2).2.1]
  exact hnov

set_option maxRecDepth 100000 in
/-- C3 witness: both aircraft end up placed (one pinned, one greedy) and the
theorem yields non-overlap of their final boxes. -/

theorem C3_placed_nonoverlap_witness :
    ¬ Overlaps
      ((layoutAutomatic (fun q => q) 0 acC3w storeC3w 1).bounds 0)
      ((layoutAutomatic (fun q => q) 0 acC3w storeC3w 1).bounds 1) :=
  C3_placed_nonoverlap (fun q => q) 0 acC3w storeC3w 1 0 1
    (by with_unfolding_all decide) (by with_unfolding_all decide)
    (by with_unfolding_all decide) (by with_unfolding_all decide)

set_option maxRecDepth 100000 in
/-- C2: the two boxes overlap, so the relaxation computes non-zero repulsion
steps (the automatic offset of aircraft 0 moves), yet after all 20
iterations the bounds array — the boxes used for the overlap tests — is
exactly what it was: the source's `datablockBounds[i] = db` assigns back the
value it just read, so the claimed translation of the box never happens and
the same forces are re-applied every iteration. -/
theorem C2_relax_bounds_unchanged :
    Overlaps (stateC2.bounds 0) (stateC2.bounds 1) ∧
    (relaxPhase sqC2 stateC2).bounds 0 = stateC2.bounds 0 ∧
    (relaxPhase sqC2 stateC2).bounds 1 = stateC2.bounds 1 ∧
    ((relaxPhase sqC2 stateC2).st 0).datablockAutomaticOffset = ⟨-40, 0⟩ ∧
    (stateC2.st 0).datablockAutomaticOffset = ⟨0, 0⟩ := by
  with_unfolding_all decide

theorem length2f_scale (c : ℝ) (v : V2 ℝ) :
    length2f Real.sqrt (scale2f c v) = |c| * length2f Real.sqrt v := by
  unfold length2f scale2f
  rw [show c * v.x * (c * v.x) + c * v.y * (c * v.y) =
    c ^ 2 * (v.x * v.x + v.y * v.y) by ring]
  rw [Real.sqrt_mul (sq_nonneg c), Real.sqrt_sq_eq_abs]

theorem length2f_unit_step (v : V2 ℝ)
    (h : ¬ length2f Real.sqrt v < 1) :
    length2f Real.sqrt (sub2f v (normalize2f Real.sqrt v)) =
      length2f Real.sqrt v - 1 := by
  have h1 : (1 : ℝ) ≤ length2f Real.sqrt v := not_lt.mp h
  have hpos : (0 : ℝ) < length2f Real.sqrt v := lt_of_lt_of_le one_pos h1
  have hne : length2f Real.sqrt v ≠ 0 := ne_of_gt hpos
  have hsub : sub2f v (normalize2f Real.sqrt v) =
      scale2f (1 - 1 / length2f Real.sqrt v) v := by
    unfold normalize2f sub2f scale2f
    simp only [V2.mk.injEq]
    constructor <;> ring
  rw [hsub, length2f_scale]
  have hc : 0 ≤ 1 - 1 / length2f Real.sqrt v := by
    have hd : 1 / length2f Real.sqrt v ≤ 1 := by
      rw [div_le_one hpos]
      exact h1
    linarith
  rw [abs_of_nonneg hc, sub_mul, one_mul, one_div,
    inv_mul_cancel₀ hne]

theorem offsetSelfOnly_auto (sq : K → K) (h rotationAngle : K)
    (st : AircraftScopeState K) (v : V2 K) :
    offsetSelfOnly sq h rotationAngle
      { st with datablockAutomaticOffset := v } =
      offsetSelfOnly sq h rotationAngle st := rfl

theorem sub2f_add2f (a b c : V2 K) :
    sub2f a (add2f b c) = sub2f (sub2f a b) c := by
  rcases a with ⟨ax, ay⟩
  rcases b with ⟨bx, bz⟩
  rcases c with ⟨cx, cy⟩
  simp only [sub2f, add2f, V2.mk.injEq]
  constructor <;> ring

/-- One attraction step either leaves the pair untouched, or performs the
accepted unit move toward the ideal offset with the moved flag set. -/
theorem attractStep_cases (sq : K → K) (rotationAngle : K) {n : ℕ}
    (ac : Fin n → AC K) (p : LayoutState K n × Bool) (i : Fin n) :
    attractStep sq rotationAngle ac p i = p ∨
    (p.1.placed i = false ∧
      ¬ length2f sq (attractGoBack sq rotationAngle ac p.1 i) < 1 ∧
      attractStep sq rotationAngle ac p i =
        (attractAccept sq rotationAngle ac p.1 i, true)) := by
  simp only [attractStep]
  split_ifs with h1 h2 h3
  · exact Or.inl rfl
  · exact Or.inl rfl
  · exact Or.inr ⟨by simpa using h1, h2, rfl⟩
  · exact Or.inl rfl

/-- Bool-level variant: a step either returns its input or reports a move. -/
theorem attractStep_flag (sq : K → K) (rotationAngle : K) {n : ℕ}
    (ac : Fin n → AC K) (p : LayoutState K n × Bool) (i : Fin n) :
    attractStep sq rotationAngle ac p i = p ∨
      (attractStep sq rotationAngle ac p i).2 = true := by
  rcases attractStep_cases sq rotationAngle ac p i with h | ⟨_, _, h⟩
  · exact Or.inl h
  · exact Or.inr (by rw [h])

/-- An accepted unit move strictly decreases the attraction measure. -/
theorem attractMeasure_accept (rotationAngle : ℝ) {n : ℕ} (ac : Fin n → AC ℝ)
    (s : LayoutState ℝ n) (i : Fin n) (hpl : s.placed i = false)
    (hlen : ¬ length2f Real.sqrt
      (attractGoBack Real.sqrt rotationAngle ac s i) < 1) :
    attractMeasure rotationAngle ac
        (attractAccept Real.sqrt rotationAngle ac s i) <
      attractMeasure rotationAngle ac s := by
  set g := attractGoBack Real.sqrt rotationAngle ac s i with hg
  set s' : LayoutState ℝ n := attractAccept Real.sqrt rotationAngle ac s i
    with hs'
  have hplaced : s'.placed = s.placed := rfl
  have hgoback' : attractGoBack Real.sqrt rotationAngle ac s' i =
      sub2f g (normalize2f Real.sqrt g) := by
    show sub2f (offsetSelfOnly Real.sqrt (ac i).heading rotationAngle
        (s'.st i)) (s'.st i).datablockAutomaticOffset = _
    have hsti : s'.st i = { s.st i with datablockAutomaticOffset :=
        (add2f (s.st i).datablockAutomaticOffset (normalize2f Real.sqrt g)) }
      := Function.update_same i _ _
    rw [hsti, offsetSelfOnly_auto]
    show sub2f (offsetSelfOnly Real.sqrt (ac i).heading rotationAngle
        (s.st i)) (add2f (s.st i).datablockAutomaticOffset
          (normalize2f Real.sqrt g)) = _
    rw [sub2f_add2f]
    rfl
  have hother : ∀ j : Fin n, j ≠ i →
      attractGoBack Real.sqrt rotationAngle ac s' j =
        attractGoBack Real.sqrt rotationAngle ac s j := by
    intro j hij
    show sub2f (offsetSelfOnly Real.sqrt (ac j).heading rotationAngle
        (s'.st j)) (s'.st j).datablockAutomaticOffset = _
    have : s'.st j = s.st j := Function.update_noteq hij _ _
    rw [this]
    rfl
  have h1 : (1 : ℝ) ≤ length2f Real.sqrt g := not_lt.mp hlen
  have hge : (1 : ℤ) ≤ Int.ceil (length2f Real.sqrt g) := by
    have hle : ((1 : ℤ) : ℝ) ≤ (Int.ceil (length2f Real.sqrt g) : ℝ) :=
      le_trans (by norm_num) (le_trans h1 (Int.le_ceil _))
    exact_mod_cast hle
  have hceil : Int.ceil (length2f Real.sqrt g - 1) =
      Int.ceil (length2f Real.sqrt g) - 1 := by
    rw [show (1 : ℝ) = ((1 : ℤ) : ℝ) by norm_num, Int.ceil_sub_int]
  unfold attractMeasure
  apply Finset.sum_lt_sum
  · intro j _
    by_cases hij : j = i
    · rw [hij, hplaced, hpl]
      simp only [Bool.false_eq_true, if_false]
      rw [← hg, hgoback', length2f_unit_step g hlen, hceil]
      omega
    · rw [hplaced, hother j hij]
  · refine ⟨i, Finset.mem_univ i, ?_⟩
    rw [hplaced, hpl]
    simp only [Bool.false_eq_true, if_false]
    rw [← hg, hgoback', length2f_unit_step g hlen, hceil]
    omega

/-- Folding attraction steps never increases the measure, and if any step in
the fold accepted a move the measure strictly decreased (unless the flag
was already set on entry). -/
theorem attractFold_measure (rotationAngle : ℝ) {n : ℕ} (ac : Fin n → AC ℝ) :
    ∀ (l : List (Fin n)) (p : LayoutState ℝ n × Bool),
      attractMeasure rotationAngle ac
          (l.foldl (attractStep Real.sqrt rotationAngle ac) p).1 ≤
        attractMeasure rotationAngle ac p.1 ∧
      ((l.foldl (attractStep Real.sqrt rotationAngle ac) p).2 = true →
        p.2 = true ∨
        attractMeasure rotationAngle ac
            (l.foldl (attractStep Real.sqrt rotationAngle ac) p).1 <
          attractMeasure rotationAngle ac p.1) := by
  intro l
  induction l with
  | nil => exact fun p => ⟨le_refl _, fun h => Or.inl h⟩
  | cons i l ih =>
    intro p
    rw [List.foldl_cons]
    rcases attractStep_cases Real.sqrt rotationAngle ac p i with he |
      ⟨hpl, hlen, he⟩
    · rw [he]
      exact ih p
    · rw [he]
      have hdec := attractMeasure_accept rotationAngle ac p.1 i hpl hlen
      rcases ih (attractAccept Real.sqrt rotationAngle ac p.1 i, true) with
        ⟨hle, _⟩
      refine ⟨le_trans hle (le_of_lt hdec), fun _ => Or.inr ?_⟩
      exact lt_of_le_of_lt hle hdec

/-- A pass that reports a move strictly decreases the measure. -/
theorem attractPass_measure (rotationAngle : ℝ) {n : ℕ} (ac : Fin n → AC ℝ)
    (s : LayoutState ℝ n) :
    attractMeasure rotationAngle ac
        (attractPass Real.sqrt rotationAngle ac s).1 ≤
      attractMeasure rotationAngle ac s ∧
    ((attractPass Real.sqrt rotationAngle ac s).2 = true →
      attractMeasure rotationAngle ac
          (attractPass Real.sqrt rotationAngle ac s).1 <
        attractMeasure rotationAngle ac s) := by
  have h := attractFold_measure rotationAngle ac (List.finRange n) (s, false)
  refine ⟨h.1, fun hm => ?_⟩
  rcases h.2 hm with hfalse | hlt
  · exact absurd hfalse (by simp)
  · exact hlt

/-- A fold that reports no move left the state untouched. -/
theorem attractFold_nomove (sq : K → K) (rotationAngle : K) {n : ℕ}
    (ac : Fin n → AC K) :
    ∀ (l : List (Fin n)) (p : LayoutState K n × Bool),
      (l.foldl (attractStep sq rotationAngle ac) p).2 = false →
      (l.foldl (attractStep sq rotationAngle ac) p).1 = p.1 := by
  intro l
  induction l with
  | nil => exact fun p _ => rfl
  | cons i l ih =>
    intro p hf
    rw [List.foldl_cons] at hf ⊢
    rcases attractStep_flag sq rotationAngle ac p i with he | htrue
    · rw [he] at hf ⊢
      exact ih p hf
    · exfalso
      have hmono : ∀ (l' : List (Fin n)) (q : LayoutState K n × Bool),
          q.2 = true → (l'.foldl (attractStep sq rotationAngle ac) q).2 =
            true := by
        intro l'
        induction l' with
        | nil => exact fun q hq => hq
        | cons i' l' ih' =>
          intro q hq
          rw [List.foldl_cons]
          rcases attractStep_flag sq rotationAngle ac q i' with he' | ht'
          · rw [he']
            exact ih' q hq
          · exact ih' _ ht'
      rw [hmono l _ htrue] at hf
      exact absurd hf (by simp)

/-- Shifting the attraction sequence by one pass. -/
theorem attractSeq_shift (sq : K → K) (rotationAngle : K) {n : ℕ}
    (ac : Fin n → AC K) (s : LayoutState K n) :
    ∀ k, attractSeq sq rotationAngle ac s (k + 1) =
      attractSeq sq rotationAngle ac
        (attractPass sq rotationAngle ac s).1 k := by
  intro k
  induction k with
  | zero => rfl
  | succ k ih =>
    show (attractPass sq rotationAngle ac
        (attractSeq sq rotationAngle ac s (k + 1))).1 = _
    rw [ih]
    rfl

/-- C8: the attraction-back loop terminates on every input: some finite
number of passes reaches a pass that accepts zero moves, and that pass
leaves the layout state fixed — exactly the loop's exit condition.  The
proof follows the claim's argument: each accepted unit step strictly
decreases the mover's distance to its ideal anchor offset (by exactly 1),
so the summed ceiled distances over unplaced aircraft form a strictly
decreasing natural measure across moving passes. -/
theorem C8_attraction_terminates (rotationAngle : ℝ) {n : ℕ}
    (ac : Fin n → AC ℝ) (s : LayoutState ℝ n) :
    ∃ k, (attractPass Real.sqrt rotationAngle ac
        (attractSeq Real.sqrt rotationAngle ac s k)).2 = false ∧
      (attractPass Real.sqrt rotationAngle ac
        (attractSeq Real.sqrt rotationAngle ac s k)).1 =
        attractSeq Real.sqrt rotationAngle ac s k := by
  have H : ∀ (N : ℕ) (s : LayoutState ℝ n),
      attractMeasure rotationAngle ac s ≤ N →
      ∃ k, (attractPass Real.sqrt rotationAngle ac
        (attractSeq Real.sqrt rotationAngle ac s k)).2 = false := by
    intro N
    induction N with
    | zero =>
      intro s hN
      cases hflag : (attractPass Real.sqrt rotationAngle ac s).2 with
      | false => exact ⟨0, hflag⟩
      | true =>
        have hlt := (attractPass_measure rotationAngle ac s).2 hflag
        omega
    | succ N ih =>
      intro s hN
      cases hflag : (attractPass Real.sqrt rotationAngle ac s).2 with
      | false => exact ⟨0, hflag⟩
      | true =>
        have hlt := (attractPass_measure rotationAngle ac s).2 hflag
        obtain ⟨k, hk⟩ := ih (attractPass Real.sqrt rotationAngle ac s).1
          (by omega)
        refine ⟨k + 1, ?_⟩
        rw [attractSeq_shift]
        exact hk
  obtain ⟨k, hk⟩ := H (attractMeasure rotationAngle ac s) s le_rfl
  exact ⟨k, hk, attractFold_nomove Real.sqrt rotationAngle ac
    (List.finRange n) (attractSeq Real.sqrt rotationAngle ac s k, false) hk⟩

end Vice
